import Mathlib

/-!
Shallow embedding of the WebSocket `ConnectionManager`
(`apps/backend/src/core/websocket.py`) and the per-frame dispatch of the
realtime message loop (`apps/backend/src/routes/realtime.py`).

Modelling conventions:
* Python `dict`s are insertion-ordered association lists with unique keys;
  `alSet` models `d[k] = v` (update in place, else append), `alErase` models
  `del d[k]` / `d.pop(k)`.
* Python `set`s of connection ids are duplicate-free lists; `setAdd` models
  `s.add`, `List.erase` models `s.discard`.
* JSON / Python values exchanged on the wire are `PyVal`: a scalar or a
  flat object with scalar fields.  Every message the manager itself builds
  is such a flat object, and the dispatch loop never looks inside a nested
  field value except to echo it, so nesting is not modelled.  A Python
  function that returns no value returns `PyScalar.pnone`.
* The transport (`websocket.send_json`) is modelled by an oracle
  `sendOk : String → Bool` telling, per connection id, whether a write on
  that connection's transport succeeds; a `false` result stands for
  `send_json` raising.  `websocket.close()` failures are swallowed by the
  source and have no observable effect, so they are not modelled.
* Timestamps (`datetime.utcnow()`) are integers; only their ordering and
  differences are used by the source.  The two consecutive `utcnow()` calls
  in `connect` are modelled as returning the same instant.
* Observable effects are recorded in traces carried in the state:
  `attempts` (every `send_json` call), `sent` (every successful one),
  `removals` (every effective removal, with its reason), `logs` (warnings).
-/

inductive PyScalar where
  | pnone : PyScalar
  | pbool : Bool → PyScalar
  | pint : Int → PyScalar
  | pstr : String → PyScalar
deriving Repr, DecidableEq

/-- A message dict as the manager builds and sends them: string keys,
scalar values, insertion-ordered. -/
abbrev Msg := List (String × PyScalar)

/-- A decoded JSON value as `json.loads` can produce it, to the depth the
dispatch loop inspects: a scalar or a flat object. -/
inductive PyVal where
  | scalar : PyScalar → PyVal
  | pyobj : Msg → PyVal
deriving Repr, DecidableEq

namespace PyScalar

/-- Python truthiness of a scalar frame field. -/
def truthy : PyScalar → Bool
  | pnone => false
  | pbool b => b
  | pint n => n != 0
  | pstr s => s != ""

/-- Python `str(v)` for the values interpolated into reply texts. -/
def pyStr : PyScalar → String
  | pnone => "None"
  | pbool true => "True"
  | pbool false => "False"
  | pint n => toString n
  | pstr s => s

end PyScalar

/-- Association-list lookup, first binding wins (Python dict access). -/
def alLookup {κ α : Type} [DecidableEq κ] : List (κ × α) → κ → Option α
  | [], _ => none
  | (k, v) :: rest, key => if k = key then some v else alLookup rest key

/-- Python `k in d`. -/
def alHasKey {κ α : Type} [DecidableEq κ] (m : List (κ × α)) (k : κ) : Bool :=
  (alLookup m k).isSome

/-- Python `d[k] = v`: replace in place when the key exists, else append. -/
def alSet {κ α : Type} [DecidableEq κ] : List (κ × α) → κ → α → List (κ × α)
  | [], key, v => [(key, v)]
  | (k, w) :: rest, key, v =>
      if k = key then (key, v) :: rest else (k, w) :: alSet rest key v

/-- Python `del d[k]` / `d.pop(k, default)`: drop the binding when present. -/
def alErase {κ α : Type} [DecidableEq κ] : List (κ × α) → κ → List (κ × α)
  | [], _ => []
  | (k, v) :: rest, key => if k = key then rest else (k, v) :: alErase rest key

/-- Python `d.get(k)` on a decoded frame dict: `None` when absent.
(`message_data.get(..)` is only reached when `message_data` is a dict;
on a non-dict the caller's `AttributeError` path is taken instead.) -/
def PyVal.get : PyVal → String → PyScalar
  | .pyobj fs, key => (alLookup fs key).getD .pnone
  | .scalar _, _ => .pnone

/-- Python `s.add(x)` on a set modelled as a duplicate-free list. -/
def setAdd (xs : List String) (x : String) : List String :=
  if x ∈ xs then xs else xs ++ [x]

/-- Per-connection metadata, `connection_metadata[connection_id]`.
`last_ping` and `created_at` are both set at connect time, so neither is
ever absent and the `metadata.get("last_ping", metadata.get("created_at"))`
fallback in the heartbeat loop never fires. -/
structure Meta where
  user_id : Option String
  last_ping : Int
  created_at : Int
  reconnect_count : Nat
deriving Repr, DecidableEq

/-- The `ConnectionManager` maps plus the recorded observable effects.
`heartbeat_interval`, `heartbeat_timeout` and `max_reconnect_attempts` are
set in `__init__` and never mutated, so they are passed as parameters to
the operations instead of being carried in the state. -/
structure ConnState where
  active : List String
  user_connections : List (String × List String)
  connection_metadata : List (String × Meta)
  -- Channel names are not validated anywhere: the key is whatever decoded
  -- value the client's `subscribe` frame carried, hence `PyScalar`.
  channel_subscriptions : List (PyScalar × List String)
  attempts : List (String × Msg)
  sent : List (String × Msg)
  removals : List (String × String)
  logs : List String
deriving Repr, DecidableEq

/-- The state of a freshly constructed `ConnectionManager`: all maps empty. -/
def initState : ConnState :=
  { active := [], user_connections := [], connection_metadata := [],
    channel_subscriptions := [], attempts := [], sent := [],
    removals := [], logs := [] }

/-- `ConnectionManager.disconnect(connection_id, reason)`.  Early return when
the id is unknown; otherwise pops the connection from `active_connections`
and `connection_metadata`, drops it from its owner's entry in
`user_connections` (deleting the key when the set empties), erases it from
every channel (deleting channels whose set empties), and closes the
transport (close errors are swallowed and unobservable).  The effective
removal is recorded in `removals`. -/
def disconnect (s : ConnState) (cid : String) (reason : String) : ConnState :=
  if cid ∈ s.active then
    let s1 := { s with active := s.active.erase cid }
    let meta := alLookup s1.connection_metadata cid
    let s2 := { s1 with connection_metadata := alErase s1.connection_metadata cid }
    let uid := meta.bind (·.user_id)
    let s3 :=
      match uid with
      | some u =>
          -- `if user_id and user_id in self.user_connections`
          if (u != "") && alHasKey s2.user_connections u then
            let conns := ((alLookup s2.user_connections u).getD []).erase cid
            if conns.isEmpty then
              { s2 with user_connections := alErase s2.user_connections u }
            else
              { s2 with user_connections := alSet s2.user_connections u conns }
          else s2
      | none => s2
    let s4 := { s3 with
      channel_subscriptions :=
        (s3.channel_subscriptions.map
            (fun (p : PyScalar × List String) => (p.1, p.2.erase cid))).filter
          (fun p => !p.2.isEmpty) }
    { s4 with removals := s4.removals ++ [(cid, reason)] }
  else s

/-- `ConnectionManager.send_personal_message(connection_id, message)`.
Returns the Python return value alongside the new state; the source has no
`return value` statement on any path, so that value is always `None`.  A
transport write failure (`sendOk cid = false`) is caught inside the method
and answered by `disconnect(connection_id, reason="send_error")`; the
method itself never raises. -/
def send_personal_message (sendOk : String → Bool) (s : ConnState)
    (cid : String) (message : Msg) : ConnState × PyScalar :=
  if cid ∈ s.active then
    let s1 := { s with attempts := s.attempts ++ [(cid, message)] }
    if sendOk cid then
      ({ s1 with sent := s1.sent ++ [(cid, message)] }, .pnone)
    else
      (disconnect s1 cid "send_error", .pnone)
  else
    ({ s with logs := s.logs ++ ["Connection " ++ cid ++ " not found"] }, .pnone)

/-- The welcome message built in `ConnectionManager.connect`. -/
def welcomeMsg (cid : String) (hb : Int) : Msg :=
  [("type", .pstr "connection"), ("status", .pstr "connected"),
   ("connection_id", .pstr cid), ("heartbeat_interval", .pint hb)]

/-- `ConnectionManager.connect(websocket, user_id)`.  `cid` is the id
produced by `str(uuid4())` and `now` the `datetime.utcnow()` instant.
Inserts the connection and its metadata, indexes it under a truthy
`user_id`, sends the welcome message through `send_personal_message`, and
returns the connection id. -/
def connect (hb : Int) (sendOk : String → Bool) (s : ConnState)
    (cid : String) (user_id : Option String) (now : Int) : ConnState × String :=
  let s1 := { s with active := setAdd s.active cid }
  let s2 := { s1 with
    connection_metadata :=
      alSet s1.connection_metadata cid
        { user_id := user_id, last_ping := now, created_at := now,
          reconnect_count := 0 } }
  let s3 :=
    match user_id with
    | some u =>
        -- `if user_id:` — truthiness, so `None` and `""` are both skipped
        if u != "" then
          let uc :=
            if alHasKey s2.user_connections u then s2.user_connections
            else s2.user_connections ++ [(u, [])]
          { s2 with
            user_connections :=
              alSet uc u (setAdd ((alLookup uc u).getD []) cid) }
        else s2
    | none => s2
  ((send_personal_message sendOk s3 cid (welcomeMsg cid hb)).1, cid)

/-- `ConnectionManager.subscribe_to_channel(connection_id, channel)`. -/
def subscribe_to_channel (s : ConnState) (cid : String) (channel : PyScalar) :
    ConnState :=
  if cid ∈ s.active then
    let cs :=
      if alHasKey s.channel_subscriptions channel then s.channel_subscriptions
      else s.channel_subscriptions ++ [(channel, [])]
    { s with channel_subscriptions :=
        alSet cs channel (setAdd ((alLookup cs channel).getD []) cid) }
  else s

/-- `ConnectionManager.unsubscribe_from_channel(connection_id, channel)`. -/
def unsubscribe_from_channel (s : ConnState) (cid : String) (channel : PyScalar) :
    ConnState :=
  if alHasKey s.channel_subscriptions channel then
    let conns := ((alLookup s.channel_subscriptions channel).getD []).erase cid
    if conns.isEmpty then
      { s with channel_subscriptions := alErase s.channel_subscriptions channel }
    else
      { s with channel_subscriptions := alSet s.channel_subscriptions channel conns }
  else s

/-- The heartbeat pong reply sent by `handle_heartbeat`. -/
def pongMsg : Msg := [("type", .pstr "heartbeat"), ("status", .pstr "pong")]

/-- The heartbeat ping sent by the monitor loop. -/
def pingMsg : Msg := [("type", .pstr "heartbeat"), ("status", .pstr "ping")]

/-- `ConnectionManager.handle_heartbeat(connection_id)` at instant `now`:
refresh `last_ping` and reply with a pong when the id is known. -/
def handle_heartbeat (sendOk : String → Bool) (s : ConnState) (cid : String)
    (now : Int) : ConnState :=
  match alLookup s.connection_metadata cid with
  | some m =>
      let s1 := { s with
        connection_metadata :=
          alSet s.connection_metadata cid { m with last_ping := now } }
      (send_personal_message sendOk s1 cid pongMsg).1
  | none => s

/-- The scan phase of one `_heartbeat_loop` iteration, folded over the
snapshot `list(self.connection_metadata.items())` taken when the loop
starts.  Returns the state after all pings plus `dead_connections` in scan
order.  The source wraps the ping send in `try/except` and appends to
`dead_connections` on an exception, but `send_personal_message` handles
every transport error internally (evicting with reason `"send_error"`) and
never raises, so that `except` branch is unreachable and has no
counterpart here. -/
def hbScan (hb hbTimeout : Int) (sendOk : String → Bool) (now : Int) :
    ConnState → List (String × Meta) → ConnState × List String
  | s, [] => (s, [])
  | s, (cid, m) :: rest =>
      -- `metadata.get("last_ping", metadata.get("created_at"))`: `last_ping`
      -- is set at connect time, so the `created_at` fallback never fires.
      let elapsed : Int := now - m.last_ping
      let s1 :=
        if hb ≤ elapsed then (send_personal_message sendOk s cid pingMsg).1
        else s
      let r := hbScan hb hbTimeout sendOk now s1 rest
      if hbTimeout < elapsed then (r.1, cid :: r.2) else r

/-- One full iteration of `ConnectionManager._heartbeat_loop` (the body
after the sleep, at instant `now`): scan all tracked connections, then
disconnect every collected dead connection with reason
`"heartbeat_timeout"`. -/
def heartbeat_iteration (hb hbTimeout : Int) (sendOk : String → Bool)
    (s : ConnState) (now : Int) : ConnState :=
  let r := hbScan hb hbTimeout sendOk now s s.connection_metadata
  r.2.foldl (fun st cid => disconnect st cid "heartbeat_timeout") r.1

/-- One iteration of `ConnectionManager._cleanup_loop`: delete every
channel whose subscriber set is empty. -/
def cleanup_iteration (s : ConnState) : ConnState :=
  { s with channel_subscriptions :=
      s.channel_subscriptions.filter (fun p => !p.2.isEmpty) }

/-- `ConnectionManager.get_connection_count()`. -/
def get_connection_count (s : ConnState) : Nat := s.active.length

/-- `ConnectionManager.get_user_connection_count(user_id)`. -/
def get_user_connection_count (s : ConnState) (u : String) : Nat :=
  ((alLookup s.user_connections u).getD []).length

/-- `ConnectionManager.get_channel_subscriber_count(channel)`. -/
def get_channel_subscriber_count (s : ConnState) (channel : PyScalar) : Nat :=
  ((alLookup s.channel_subscriptions channel).getD []).length

/-- One `ConnectionManager` operation, for reasoning about arbitrary
operation sequences.  `connect` carries the generated id and the clock
reading; every operation that writes on a transport carries its own send
oracle. -/
inductive Op where
  | connect (cid : String) (user_id : Option String) (now : Int)
      (sendOk : String → Bool)
  | disconnect (cid reason : String)
  | subscribe (cid : String) (channel : PyScalar)
  | unsubscribe (cid : String) (channel : PyScalar)
  | heartbeat (cid : String) (now : Int) (sendOk : String → Bool)
  | hbIter (now : Int) (sendOk : String → Bool)
  | cleanIter

/-- Apply one operation to the manager state. -/
def applyOp (hb hbTimeout : Int) (s : ConnState) : Op → ConnState
  | .connect cid u now sendOk => (connect hb sendOk s cid u now).1
  | .disconnect cid reason => disconnect s cid reason
  | .subscribe cid ch => subscribe_to_channel s cid ch
  | .unsubscribe cid ch => unsubscribe_from_channel s cid ch
  | .heartbeat cid now sendOk => handle_heartbeat sendOk s cid now
  | .hbIter now sendOk => heartbeat_iteration hb hbTimeout sendOk s now
  | .cleanIter => cleanup_iteration s

/-- Run an operation sequence from the freshly constructed manager. -/
def runOps (hb hbTimeout : Int) (ops : List Op) : ConnState :=
  ops.foldl (applyOp hb hbTimeout) initState

/-! ## The message loop of `routes/realtime.py` (`websocket_endpoint`) -/

/-- The outcome of `await websocket.receive_text()` followed by
`json.loads`: the transport reported a disconnect, the text was not valid
JSON, or a decoded JSON value. -/
inductive Inbound where
  | closed : Inbound
  | malformed : Inbound
  | decoded : PyVal → Inbound
deriving Repr, DecidableEq

/-- Whether one iteration of the `while True` message loop continues or
breaks. -/
inductive LoopStep where
  | cont : LoopStep
  | brk : LoopStep
deriving Repr, DecidableEq

/-- Error reply built by the loop: `{"type": "error", "code": ..,
"message": ..}`. -/
def errorMsg (code msg : String) : Msg :=
  [("type", .pstr "error"), ("code", .pstr code), ("message", .pstr msg)]

/-- Subscription status reply, echoing the channel value. -/
def subscriptionMsg (status : String) (channel : PyScalar) : Msg :=
  [("type", .pstr "subscription"), ("status", .pstr status),
   ("channel", channel)]

/-- One iteration of the message-handling loop in `websocket_endpoint`,
given the already-received inbound frame and the instant `now` at which a
heartbeat would be stamped.  `WebSocketDisconnect` breaks the loop; every
other path continues: the replies go through `send_personal_message`,
which never raises, so neither the `except WebSocketDisconnect` around
the receive nor the inner `except Exception: break` around the
server-error reply can fire on account of a reply. -/
def handleFrame (sendOk : String → Bool) (s : ConnState) (cid : String)
    (frame : Inbound) (now : Int) : ConnState × LoopStep :=
  match frame with
  | .closed => (s, .brk)
  | .malformed =>
      -- `except json.JSONDecodeError`
      ((send_personal_message sendOk s cid
          (errorMsg "invalid_json" "Invalid JSON format")).1, .cont)
  | .decoded v =>
    match v with
    | .pyobj _ =>
        let mt := v.get "type"
        if mt = .pstr "heartbeat" then
          (handle_heartbeat sendOk s cid now, .cont)
        else if mt = .pstr "subscribe" then
          let channel := v.get "channel"
          if channel.truthy then
            let s1 := subscribe_to_channel s cid channel
            ((send_personal_message sendOk s1 cid
                (subscriptionMsg "subscribed" channel)).1, .cont)
          else
            ((send_personal_message sendOk s cid
                (errorMsg "invalid_message"
                  "Channel name required for subscription")).1, .cont)
        else if mt = .pstr "unsubscribe" then
          let channel := v.get "channel"
          if channel.truthy then
            let s1 := unsubscribe_from_channel s cid channel
            ((send_personal_message sendOk s1 cid
                (subscriptionMsg "unsubscribed" channel)).1, .cont)
          else
            ((send_personal_message sendOk s cid
                (errorMsg "invalid_message"
                  "Channel name required for unsubscription")).1, .cont)
        else if mt = .pstr "ping" then
          ((send_personal_message sendOk s cid
              [("type", .pstr "pong"), ("timestamp", v.get "timestamp")]).1,
           .cont)
        else
          -- the trailing `else`: unknown message type
          ((send_personal_message sendOk s cid
              (errorMsg "unknown_message_type"
                ("Unknown message type: " ++ mt.pyStr))).1, .cont)
    | .scalar _ =>
        -- `message_data.get(..)` raises `AttributeError` on a non-dict;
        -- the outer `except Exception` replies with a server_error frame.
        ((send_personal_message sendOk s cid
            (errorMsg "server_error"
              "An error occurred processing your message")).1, .cont)

/-- A concrete one-connection state: `"c1"` is connected, anonymous, with
both timestamps at instant 0. -/
def demoState : ConnState :=
  { initState with
    active := ["c1"],
    connection_metadata :=
      [("c1", { user_id := none, last_ping := 0, created_at := 0,
                reconnect_count := 0 })] }

/-- `demoState` with `"c1"` already subscribed to channel `"room-1"`. -/
def subDemoState : ConnState :=
  { demoState with channel_subscriptions := [(.pstr "room-1", ["c1"])] }

/-- A transport oracle on which every write succeeds. -/
def okAll : String → Bool := fun _ => true

/-- A transport oracle on which every write raises. -/
def okNone : String → Bool := fun _ => false

/-- The key list of a Python dict model. -/
def alKeys {κ α : Type} (m : List (κ × α)) : List κ := m.map Prod.fst

/-- Unique keys, as every Python dict has. -/
def alNodup {κ α : Type} (m : List (κ × α)) : Prop := (alKeys m).Nodup

/-- Every present key of a user / channel index maps to a non-empty set. -/
def EntriesNonempty {κ : Type} (m : List (κ × List String)) : Prop :=
  ∀ p ∈ m, p.2 ≠ []

/-- The non-empty-set invariant of claim C3, on both indexes. -/
def Inv3 (s : ConnState) : Prop :=
  EntriesNonempty s.user_connections ∧ EntriesNonempty s.channel_subscriptions

/-- The inductive invariant behind claim C9: the metadata key set tracks
`active_connections`, every connection id appearing in a user or channel
set is active, each connection sits only in its owner's user entry, and
all dict keys and sets are duplicate-free (as Python dicts and sets are by
construction). -/
structure Inv9 (s : ConnState) : Prop where
  active_nodup : s.active.Nodup
  meta_nodup : alNodup s.connection_metadata
  users_nodup : alNodup s.user_connections
  user_sets_nodup : ∀ p ∈ s.user_connections, (p.2 : List String).Nodup
  chan_sets_nodup : ∀ p ∈ s.channel_subscriptions, (p.2 : List String).Nodup
  meta_keys : ∀ k, (alLookup s.connection_metadata k).isSome ↔ k ∈ s.active
  user_sub : ∀ p ∈ s.user_connections, ∀ c ∈ (p.2 : List String),
    c ∈ s.active
  chan_sub : ∀ p ∈ s.channel_subscriptions, ∀ c ∈ (p.2 : List String),
    c ∈ s.active
  owner : ∀ p ∈ s.user_connections, ∀ c ∈ (p.2 : List String),
    ∃ m, alLookup s.connection_metadata c = some m ∧ m.user_id = some p.1
  user_key_ne : ∀ p ∈ s.user_connections, p.1 ≠ ""

/-- The sequence's `connect` operations each carry an id not currently
registered, as `str(uuid4())`-generated ids are guaranteed to be. -/
def freshOps (hb hbTimeout : Int) : ConnState → List Op → Bool
  | _, [] => true
  | s, op :: rest =>
      (match op with
       | Op.connect cid _ _ _ => decide (cid ∉ s.active)
       | _ => true) &&
      freshOps hb hbTimeout (applyOp hb hbTimeout s op) rest

/-- A short demo run: an authenticated connect, a channel subscribe, and
one heartbeat-monitor iteration past the timeout. -/
def demoOps : List Op :=
  [Op.connect "c1" (some "u1") 0 okAll,
   Op.subscribe "c1" (.pstr "room-1"),
   Op.hbIter 61 okAll]

/-! ## Association-list and set lemmas -/

theorem alLookup_append_missing {κ α : Type} [DecidableEq κ]
    (m : List (κ × α)) (k : κ) (v : α) (h : alLookup m k = none) :
    alLookup (m ++ [(k, v)]) k = some v := by
  induction m with
  | nil => simp [alLookup]
  | cons p rest ih =>
      by_cases hp : p.1 = k
      · simp [alLookup, hp] at h
      · simp [alLookup, hp] at h ⊢
        exact ih h

theorem alErase_append_missing {κ α : Type} [DecidableEq κ]
    (m : List (κ × α)) (k : κ) (v : α) (h : alLookup m k = none) :
    alErase (m ++ [(k, v)]) k = m := by
  induction m with
  | nil => simp [alErase]
  | cons p rest ih =>
      by_cases hp : p.1 = k
      · simp [alLookup, hp] at h
      · simp [alLookup, hp] at h
        simp [alErase, hp, ih h]

theorem alLookup_alSet_self {κ α : Type} [DecidableEq κ]
    (m : List (κ × α)) (k : κ) (v : α) : alLookup (alSet m k v) k = some v := by
  induction m with
  | nil => simp [alSet, alLookup]
  | cons p rest ih =>
      by_cases h : p.1 = k
      · simp [alSet, alLookup, h]
      · simpa [alSet, alLookup, h] using ih

theorem alLookup_alSet_ne {κ α : Type} [DecidableEq κ]
    (m : List (κ × α)) (k k' : κ) (v : α) (h : k' ≠ k) :
    alLookup (alSet m k v) k' = alLookup m k' := by
  induction m with
  | nil => simp [alSet, alLookup, Ne.symm h]
  | cons p rest ih =>
      by_cases hp : p.1 = k
      · simp [alSet, alLookup, hp, h, Ne.symm h]
      · simp only [alSet, hp, if_false]
        by_cases hp' : p.1 = k'
        · simp [alLookup, hp']
        · simpa [alLookup, hp'] using ih

theorem alLookup_alErase_ne {κ α : Type} [DecidableEq κ]
    (m : List (κ × α)) (k k' : κ) (h : k' ≠ k) :
    alLookup (alErase m k) k' = alLookup m k' := by
  induction m with
  | nil => simp [alErase]
  | cons p rest ih =>
      by_cases hp : p.1 = k
      · simp [alErase, alLookup, hp, h, Ne.symm h]
      · by_cases hp' : p.1 = k'
        · simp [alErase, alLookup, hp, hp', h]
        · simpa [alErase, alLookup, hp, hp'] using ih

theorem alKeys_alErase {κ α : Type} [DecidableEq κ]
    (m : List (κ × α)) (k : κ) : alKeys (alErase m k) = (alKeys m).erase k := by
  induction m with
  | nil => simp [alErase, alKeys]
  | cons p rest ih =>
      by_cases hp : p.1 = k
      · simp [alErase, alKeys, hp, List.erase_cons]
      · simpa [alErase, alKeys, hp, List.erase_cons] using ih

theorem alKeys_alSet {κ α : Type} [DecidableEq κ]
    (m : List (κ × α)) (k : κ) (v : α) :
    alKeys (alSet m k v) = if alHasKey m k then alKeys m else alKeys m ++ [k] := by
  induction m with
  | nil => simp [alSet, alKeys, alHasKey, alLookup]
  | cons p rest ih =>
      obtain ⟨a, b⟩ := p
      by_cases hp : a = k
      · simp [alSet, alKeys, alHasKey, alLookup, hp]
      · have h1 : alSet ((a, b) :: rest) k v = (a, b) :: alSet rest k v := by
          simp [alSet, hp]
        have h2 : alHasKey ((a, b) :: rest) k = alHasKey rest k := by
          simp [alHasKey, alLookup, hp]
        rw [h1, h2]
        unfold alKeys at ih ⊢
        simp only [List.map_cons]
        rw [ih]
        by_cases hk : alHasKey rest k
        · simp [hk]
        · simp [hk]

theorem alLookup_isSome_of_mem_keys {κ α : Type} [DecidableEq κ]
    {m : List (κ × α)} {k : κ} (h : k ∈ alKeys m) : (alLookup m k).isSome := by
  induction m with
  | nil => simp [alKeys] at h
  | cons p rest ih =>
      by_cases hp : p.1 = k
      · simp [alLookup, hp]
      · unfold alKeys at h
        rw [List.map_cons, List.mem_cons] at h
        rcases h with h | h
        · exact absurd h.symm hp
        · simpa [alLookup, hp] using ih h

theorem alNodup_alSet {κ α : Type} [DecidableEq κ]
    (m : List (κ × α)) (k : κ) (v : α) (h : alNodup m) :
    alNodup (alSet m k v) := by
  unfold alNodup
  rw [alKeys_alSet]
  by_cases hk : alHasKey m k
  · simpa [hk] using h
  · simp only [hk, if_false]
    refine List.Nodup.append h (List.nodup_singleton k) ?_
    intro a ha hb
    rw [List.mem_singleton] at hb
    subst hb
    exact hk (by simpa [alHasKey] using alLookup_isSome_of_mem_keys ha)

theorem alNodup_alErase {κ α : Type} [DecidableEq κ]
    (m : List (κ × α)) (k : κ) (h : alNodup m) : alNodup (alErase m k) := by
  unfold alNodup
  rw [alKeys_alErase]
  exact h.erase k

theorem mem_keys_of_alLookup_isSome {κ α : Type} [DecidableEq κ]
    {m : List (κ × α)} {k : κ} (h : (alLookup m k).isSome) : k ∈ alKeys m := by
  induction m with
  | nil => simp [alLookup] at h
  | cons p rest ih =>
      by_cases hp : p.1 = k
      · unfold alKeys
        rw [List.map_cons, List.mem_cons]
        exact Or.inl hp.symm
      · simp [alLookup, hp] at h
        unfold alKeys at ih ⊢
        rw [List.map_cons, List.mem_cons]
        exact Or.inr (ih h)

theorem alLookup_alErase_self {κ α : Type} [DecidableEq κ]
    {m : List (κ × α)} (k : κ) (h : alNodup m) :
    alLookup (alErase m k) k = none := by
  cases heq : alLookup (alErase m k) k with
  | none => rfl
  | some v =>
      exfalso
      have hk : k ∈ alKeys (alErase m k) :=
        mem_keys_of_alLookup_isSome (by simp [heq])
      rw [alKeys_alErase] at hk
      exact (h.not_mem_erase (a := k)) hk

theorem mem_of_alLookup_eq_some {κ α : Type} [DecidableEq κ]
    {m : List (κ × α)} {k : κ} {v : α} (h : alLookup m k = some v) :
    (k, v) ∈ m := by
  induction m with
  | nil => simp [alLookup] at h
  | cons p rest ih =>
      by_cases hp : p.1 = k
      · simp [alLookup, hp] at h
        have hpkv : p = (k, v) := by
          obtain ⟨a, b⟩ := p
          simp_all
        rw [hpkv]
        exact List.mem_cons_self _ _
      · simp [alLookup, hp] at h
        exact List.mem_cons_of_mem _ (ih h)

theorem alLookup_eq_some_of_mem {κ α : Type} [DecidableEq κ]
    {m : List (κ × α)} {p : κ × α} (hnd : alNodup m) (h : p ∈ m) :
    alLookup m p.1 = some p.2 := by
  induction m with
  | nil => simp at h
  | cons q rest ih =>
      rcases List.mem_cons.mp h with h | h
      · subst h
        simp [alLookup]
      · have hq : q.1 ≠ p.1 := by
          intro he
          have : p.1 ∈ alKeys rest := List.mem_map_of_mem Prod.fst h
          rw [← he] at this
          exact (List.nodup_cons.mp hnd).1 this
        have hnd' : alNodup rest := (List.nodup_cons.mp hnd).2
        simpa [alLookup, hq] using ih hnd' h

theorem mem_alSet {κ α : Type} [DecidableEq κ]
    {m : List (κ × α)} {k : κ} {v : α} {p : κ × α} (h : p ∈ alSet m k v) :
    p = (k, v) ∨ p ∈ m := by
  induction m with
  | nil => simpa [alSet] using h
  | cons q rest ih =>
      by_cases hq : q.1 = k
      · simp [alSet, hq] at h
        rcases h with h | h
        · exact Or.inl h
        · exact Or.inr (List.mem_cons_of_mem _ h)
      · simp [alSet, hq] at h
        rcases h with h | h
        · exact Or.inr (by simp [h])
        · rcases ih h with h' | h'
          · exact Or.inl h'
          · exact Or.inr (List.mem_cons_of_mem _ h')

theorem mem_alErase {κ α : Type} [DecidableEq κ]
    {m : List (κ × α)} {k : κ} {p : κ × α} (h : p ∈ alErase m k) : p ∈ m := by
  induction m with
  | nil => simp [alErase] at h
  | cons q rest ih =>
      by_cases hq : q.1 = k
      · simp [alErase, hq] at h
        exact List.mem_cons_of_mem _ h
      · simp [alErase, hq] at h
        rcases h with h | h
        · simp [h]
        · exact List.mem_cons_of_mem _ (ih h)

theorem alSet_append_missing {κ α : Type} [DecidableEq κ]
    (m : List (κ × α)) (k : κ) (w v : α) (h : alLookup m k = none) :
    alSet (m ++ [(k, w)]) k v = m ++ [(k, v)] := by
  induction m with
  | nil => simp [alSet]
  | cons p rest ih =>
      by_cases hp : p.1 = k
      · simp [alLookup, hp] at h
      · simp [alLookup, hp] at h
        simp [alSet, hp, ih h]

theorem mem_setAdd {xs : List String} {x y : String} (h : y ∈ setAdd xs x) :
    y = x ∨ y ∈ xs := by
  unfold setAdd at h
  by_cases hx : x ∈ xs
  · simp [hx] at h
    exact Or.inr h
  · simp [hx] at h
    tauto

theorem setAdd_mem_iff {xs : List String} {x y : String} :
    y ∈ setAdd xs x ↔ y = x ∨ y ∈ xs := by
  constructor
  · exact mem_setAdd
  · intro h
    unfold setAdd
    by_cases hx : x ∈ xs
    · rcases h with h | h
      · subst h
        simp [hx]
      · simp [hx, h]
    · rcases h with h | h
      · simp [hx, h]
      · simp [hx, h]

theorem setAdd_self_mem (xs : List String) (x : String) : x ∈ setAdd xs x :=
  setAdd_mem_iff.mpr (Or.inl rfl)

theorem setAdd_ne_nil (xs : List String) (x : String) : setAdd xs x ≠ [] := by
  unfold setAdd
  by_cases hx : x ∈ xs
  · simp [hx]
    rintro rfl
    simp at hx
  · simp [hx]

theorem setAdd_nodup {xs : List String} (x : String) (h : xs.Nodup) :
    (setAdd xs x).Nodup := by
  unfold setAdd
  by_cases hx : x ∈ xs
  · simpa [hx]
  · simp [hx]
    exact List.Nodup.append h (List.nodup_singleton x)
      (by intro a ha hb; rw [List.mem_singleton] at hb; subst hb; exact hx ha)

theorem setAdd_length_of_not_mem {xs : List String} {x : String} (h : x ∉ xs) :
    (setAdd xs x).length = xs.length + 1 := by
  simp [setAdd, h]

/-! ## Effect lemmas for `disconnect` and `send_personal_message` -/

theorem disconnect_of_not_mem {s : ConnState} {cid : String} (r : String)
    (h : cid ∉ s.active) : disconnect s cid r = s := by
  unfold disconnect
  rw [if_neg h]

theorem disconnect_attempts (s : ConnState) (cid r : String) :
    (disconnect s cid r).attempts = s.attempts := by
  unfold disconnect
  by_cases h : cid ∈ s.active
  · simp only [h, if_true]
    repeat' split
    all_goals rfl
  · simp [h]

theorem disconnect_sent (s : ConnState) (cid r : String) :
    (disconnect s cid r).sent = s.sent := by
  unfold disconnect
  by_cases h : cid ∈ s.active
  · simp only [h, if_true]
    repeat' split
    all_goals rfl
  · simp [h]

theorem disconnect_logs (s : ConnState) (cid r : String) :
    (disconnect s cid r).logs = s.logs := by
  unfold disconnect
  by_cases h : cid ∈ s.active
  · simp only [h, if_true]
    repeat' split
    all_goals rfl
  · simp [h]

theorem disconnect_active_of_mem {s : ConnState} {cid : String} (r : String)
    (h : cid ∈ s.active) : (disconnect s cid r).active = s.active.erase cid := by
  unfold disconnect
  simp only [h, if_true]
  repeat' split
  all_goals rfl

theorem disconnect_removals_of_mem {s : ConnState} {cid : String} (r : String)
    (h : cid ∈ s.active) :
    (disconnect s cid r).removals = s.removals ++ [(cid, r)] := by
  unfold disconnect
  simp only [h, if_true]
  repeat' split
  all_goals rfl

theorem disconnect_metadata_of_mem {s : ConnState} {cid : String} (r : String)
    (h : cid ∈ s.active) :
    (disconnect s cid r).connection_metadata =
      alErase s.connection_metadata cid := by
  unfold disconnect
  simp only [h, if_true]
  repeat' split
  all_goals rfl

theorem disconnect_channels_of_mem {s : ConnState} {cid : String} (r : String)
    (h : cid ∈ s.active) :
    (disconnect s cid r).channel_subscriptions =
      (s.channel_subscriptions.map
          (fun (p : PyScalar × List String) => (p.1, p.2.erase cid))).filter
        (fun p => !p.2.isEmpty) := by
  unfold disconnect
  simp only [h, if_true]
  repeat' split
  all_goals rfl

theorem disconnect_active_mem_ne {s : ConnState} {cid x : String} (r : String)
    (hne : x ≠ cid) : (x ∈ (disconnect s cid r).active ↔ x ∈ s.active) := by
  by_cases h : cid ∈ s.active
  · rw [disconnect_active_of_mem r h]
    exact List.mem_erase_of_ne hne
  · rw [disconnect_of_not_mem r h]

theorem disconnect_active_not_mem_self {s : ConnState} {cid : String}
    (r : String) (hnd : s.active.Nodup) :
    cid ∉ (disconnect s cid r).active := by
  by_cases h : cid ∈ s.active
  · rw [disconnect_active_of_mem r h]
    exact hnd.not_mem_erase
  · rw [disconnect_of_not_mem r h]
    exact h

theorem disconnect_metadata_lookup_ne {s : ConnState} {cid x : String}
    (r : String) (hne : x ≠ cid) :
    alLookup (disconnect s cid r).connection_metadata x =
      alLookup s.connection_metadata x := by
  by_cases h : cid ∈ s.active
  · rw [disconnect_metadata_of_mem r h]
    exact alLookup_alErase_ne _ _ _ hne
  · rw [disconnect_of_not_mem r h]

theorem disconnect_removals_mem_ne {s : ConnState} {cid x r' : String}
    (r : String) (hne : x ≠ cid) :
    ((x, r') ∈ (disconnect s cid r).removals ↔ (x, r') ∈ s.removals) := by
  by_cases h : cid ∈ s.active
  · rw [disconnect_removals_of_mem r h]
    simp [hne]
  · rw [disconnect_of_not_mem r h]

theorem disconnect_removals_count_ne {s : ConnState} {cid x r' : String}
    (r : String) (hne : x ≠ cid) :
    (disconnect s cid r).removals.count (x, r') = s.removals.count (x, r') := by
  by_cases h : cid ∈ s.active
  · rw [disconnect_removals_of_mem r h]
    rw [List.count_append]
    simp [List.count_singleton, hne]
  · rw [disconnect_of_not_mem r h]

theorem send_eq_missing (sendOk : String → Bool) (s : ConnState)
    (cid : String) (msg : Msg) (h : cid ∉ s.active) :
    send_personal_message sendOk s cid msg =
      ({ s with logs := s.logs ++ ["Connection " ++ cid ++ " not found"] },
       .pnone) := by
  unfold send_personal_message
  rw [if_neg h]

theorem send_eq_ok (sendOk : String → Bool) (s : ConnState) (cid : String)
    (msg : Msg) (h : cid ∈ s.active) (hok : sendOk cid = true) :
    send_personal_message sendOk s cid msg =
      ({ s with attempts := s.attempts ++ [(cid, msg)],
                sent := s.sent ++ [(cid, msg)] }, .pnone) := by
  unfold send_personal_message
  rw [if_pos h]
  simp [hok]

theorem send_eq_fail (sendOk : String → Bool) (s : ConnState) (cid : String)
    (msg : Msg) (h : cid ∈ s.active) (hfail : sendOk cid = false) :
    send_personal_message sendOk s cid msg =
      (disconnect { s with attempts := s.attempts ++ [(cid, msg)] } cid
        "send_error", .pnone) := by
  unfold send_personal_message
  rw [if_pos h]
  simp [hfail]

/-! ## `connect` characterization -/

theorem connect_state_ok (hb : Int) (sendOk : String → Bool) (s : ConnState)
    (cid : String) (u : Option String) (now : Int) (hok : sendOk cid = true) :
    (connect hb sendOk s cid u now).1.active = setAdd s.active cid ∧
    (connect hb sendOk s cid u now).1.connection_metadata =
      alSet s.connection_metadata cid
        { user_id := u, last_ping := now, created_at := now,
          reconnect_count := 0 } ∧
    (connect hb sendOk s cid u now).2 = cid ∧
    (cid, welcomeMsg cid hb) ∈ (connect hb sendOk s cid u now).1.sent := by
  unfold connect
  rcases u with _ | u₀
  · dsimp only
    rw [send_eq_ok sendOk _ cid (welcomeMsg cid hb)
      (by exact setAdd_self_mem s.active cid) hok]
    refine ⟨rfl, rfl, rfl, ?_⟩
    simp
  · dsimp only
    by_cases hu : (u₀ != "") = true
    · simp only [hu, if_true]
      rw [send_eq_ok sendOk _ cid (welcomeMsg cid hb)
        (by exact setAdd_self_mem s.active cid) hok]
      refine ⟨?_, ?_, ?_, ?_⟩ <;> simp
    · simp only [hu, if_false]
      rw [send_eq_ok sendOk _ cid (welcomeMsg cid hb)
        (by exact setAdd_self_mem s.active cid) hok]
      refine ⟨?_, ?_, ?_, ?_⟩ <;> simp

/-! ## Claim theorems -/

/-- C10: for every connection id that is not a key of `active_connections`
and every message, `send_personal_message` sends nothing, raises nothing
and leaves all four registry maps (and every other observable trace except
a warning log line) unchanged, returning `None`. -/
theorem C10_send_to_unknown_connection (sendOk : String → Bool)
    (s : ConnState) (cid : String) (msg : Msg) (h : cid ∉ s.active) :
    (send_personal_message sendOk s cid msg).1.active = s.active ∧
    (send_personal_message sendOk s cid msg).1.user_connections =
      s.user_connections ∧
    (send_personal_message sendOk s cid msg).1.connection_metadata =
      s.connection_metadata ∧
    (send_personal_message sendOk s cid msg).1.channel_subscriptions =
      s.channel_subscriptions ∧
    (send_personal_message sendOk s cid msg).1.attempts = s.attempts ∧
    (send_personal_message sendOk s cid msg).1.sent = s.sent ∧
    (send_personal_message sendOk s cid msg).1.removals = s.removals ∧
    (send_personal_message sendOk s cid msg).1.logs =
      s.logs ++ ["Connection " ++ cid ++ " not found"] ∧
    (send_personal_message sendOk s cid msg).2 = PyScalar.pnone := by
  rw [send_eq_missing sendOk s cid msg h]
  exact ⟨rfl, rfl, rfl, rfl, rfl, rfl, rfl, rfl, rfl⟩

/-- Witness for C10 at a concrete unknown id. -/
theorem C10_send_to_unknown_connection_witness :
    "c9" ∉ demoState.active ∧
    (send_personal_message okAll demoState "c9" pongMsg).1.active =
      demoState.active :=
  ⟨by decide,
   (C10_send_to_unknown_connection okAll demoState "c9" pongMsg
      (by decide)).1⟩

/-- C4, counterexample: on a successful write `send_personal_message`
returns `None`, never `True` — the source method has no return value on
any path, so the claimed boolean result does not exist. -/
theorem C4_counterexample :
    (send_personal_message okAll demoState "c1" pongMsg).2 =
      PyScalar.pnone ∧
    (send_personal_message okAll demoState "c1" pongMsg).2 ≠
      PyScalar.pbool true := by
  constructor
  · rfl
  · decide

/-- C4 as amended: `send_personal_message` always returns `None`; on a
successful write the serialized message is recorded on the transport, and
on any transport write error it invokes `disconnect(cid, "send_error")`,
which removes the connection and records the removal. -/
theorem C4_send_result (sendOk : String → Bool) (s : ConnState)
    (cid : String) (msg : Msg) (h : cid ∈ s.active) (hnd : s.active.Nodup) :
    (send_personal_message sendOk s cid msg).2 = PyScalar.pnone ∧
    (sendOk cid = true →
      (send_personal_message sendOk s cid msg).1.sent =
        s.sent ++ [(cid, msg)] ∧
      (send_personal_message sendOk s cid msg).1.removals = s.removals) ∧
    (sendOk cid = false →
      (send_personal_message sendOk s cid msg).1.removals =
        s.removals ++ [(cid, "send_error")] ∧
      cid ∉ (send_personal_message sendOk s cid msg).1.active) := by
  by_cases hok : sendOk cid = true
  · rw [send_eq_ok sendOk s cid msg h hok]
    exact ⟨rfl, fun _ => ⟨rfl, rfl⟩,
      fun hc => absurd (hok.symm.trans hc) (by decide)⟩
  · have hfail : sendOk cid = false := by
      cases hv : sendOk cid
      · rfl
      · exact absurd hv hok
    rw [send_eq_fail sendOk s cid msg h hfail]
    refine ⟨rfl, fun hc => absurd (hfail.symm.trans hc) (by decide), fun _ => ?_⟩
    constructor
    · exact disconnect_removals_of_mem _ h
    · exact disconnect_active_not_mem_self _ hnd

/-- Witness for C4's amended theorem on the demo state. -/
theorem C4_send_result_witness :
    "c1" ∈ demoState.active ∧
    (send_personal_message okNone demoState "c1" pongMsg).1.removals =
      demoState.removals ++ [("c1", "send_error")] :=
  ⟨by decide,
   ((C4_send_result okNone demoState "c1" pongMsg (by decide)
      (by decide)).2.2 rfl).1⟩

/-- C2, counterexample: when the welcome write fails at accept time, the
connection added by `connect` is immediately evicted again, so the
registry does not contain it and the connection count does not increase. -/
theorem C2_counterexample :
    get_connection_count (connect 30 okNone initState "c1" none 0).1 =
      get_connection_count initState ∧
    "c1" ∉ (connect 30 okNone initState "c1" none 0).1.active := by decide

/-- C2 as amended: provided the welcome write succeeds, `connect` with a
fresh id leaves the registry containing the connection and raises the
count by exactly one; `disconnect` of a present connection lowers the
count by exactly one and removes it; and `disconnect` of an unknown id —
in particular a second `disconnect` of the same id — is a no-op leaving
the entire state unchanged. -/
theorem C2_add_remove_count (hb : Int) (sendOk : String → Bool)
    (s t : ConnState) (cid cid2 : String) (u : Option String) (now : Int)
    (reason : String) (hfresh : cid ∉ s.active) (hok : sendOk cid = true)
    (hmem : cid2 ∈ t.active) (hnd : t.active.Nodup) :
    (cid ∈ (connect hb sendOk s cid u now).1.active ∧
     get_connection_count (connect hb sendOk s cid u now).1 =
       get_connection_count s + 1) ∧
    (get_connection_count (disconnect t cid2 reason) =
       get_connection_count t - 1 ∧
     cid2 ∉ (disconnect t cid2 reason).active) ∧
    (∀ t' : ConnState, cid2 ∉ t'.active → disconnect t' cid2 reason = t') := by
  refine ⟨?_, ⟨?_, ?_⟩, fun t' h' => disconnect_of_not_mem reason h'⟩
  · have hc := connect_state_ok hb sendOk s cid u now hok
    rw [get_connection_count, hc.1]
    exact ⟨hc.1 ▸ setAdd_self_mem s.active cid,
      by rw [get_connection_count, setAdd_length_of_not_mem hfresh]⟩
  · rw [get_connection_count, get_connection_count,
      disconnect_active_of_mem reason hmem]
    exact List.length_erase_of_mem hmem
  · exact disconnect_active_not_mem_self reason hnd

/-- Witness for C2's amended theorem: a fresh connect on the empty
manager, and a disconnect of the demo connection. -/
theorem C2_add_remove_count_witness :
    ("c1" ∉ initState.active ∧ "c1" ∈ demoState.active) ∧
    get_connection_count (connect 30 okAll initState "c1" none 0).1 =
      get_connection_count initState + 1 :=
  ⟨⟨by decide, by decide⟩,
   (C2_add_remove_count 30 okAll initState demoState "c1" "c1" none 0
      "client_disconnect" (by decide) rfl (by decide) (by decide)).1.2⟩

/-- C6: `connect` returns the generated connection id and, before
returning (the welcome write happens inside `connect`), delivers to that
same connection a connection-status message carrying status `"connected"`,
the identical connection id, and the configured heartbeat interval. -/
theorem C6_welcome_message (hb : Int) (sendOk : String → Bool)
    (s : ConnState) (cid : String) (u : Option String) (now : Int)
    (hok : sendOk cid = true) :
    (connect hb sendOk s cid u now).2 = cid ∧
    ((connect hb sendOk s cid u now).2,
      [("type", PyScalar.pstr "connection"),
       ("status", PyScalar.pstr "connected"),
       ("connection_id", PyScalar.pstr cid),
       ("heartbeat_interval", PyScalar.pint hb)]) ∈
      (connect hb sendOk s cid u now).1.sent := by
  have hc := connect_state_ok hb sendOk s cid u now hok
  refine ⟨hc.2.2.1, ?_⟩
  rw [hc.2.2.1]
  exact hc.2.2.2

/-- Witness for C6 on the empty manager. -/
theorem C6_welcome_message_witness :
    (connect 30 okAll initState "c1" (some "u1") 0).2 = "c1" ∧
    ((connect 30 okAll initState "c1" (some "u1") 0).2,
      [("type", PyScalar.pstr "connection"),
       ("status", PyScalar.pstr "connected"),
       ("connection_id", PyScalar.pstr "c1"),
       ("heartbeat_interval", PyScalar.pint 30)]) ∈
      (connect 30 okAll initState "c1" (some "u1") 0).1.sent :=
  C6_welcome_message 30 okAll initState "c1" (some "u1") 0 rfl

/-! ## Subscribe / unsubscribe characterization (claim C5) -/

theorem erase_append_self {l : List String} {x : String} (h : x ∉ l) :
    (l ++ [x]).erase x = l := by
  induction l with
  | nil => simp
  | cons a rest ih =>
      have hax : a ≠ x := by
        rintro rfl
        exact h (List.mem_cons_self _ _)
      have h' : x ∉ rest := fun hx => h (List.mem_cons_of_mem _ hx)
      simp [List.erase_cons, hax, ih h']

theorem alHasKey_eq_false_iff {κ α : Type} [DecidableEq κ]
    {m : List (κ × α)} {k : κ} :
    alHasKey m k = false ↔ alLookup m k = none := by
  unfold alHasKey
  cases hv : alLookup m k <;> simp

theorem subscribe_channels_of_haskey (s : ConnState) (cid : String)
    (ch : PyScalar) (h : cid ∈ s.active)
    (hk : alHasKey s.channel_subscriptions ch = true) :
    (subscribe_to_channel s cid ch).channel_subscriptions =
      alSet s.channel_subscriptions ch
        (setAdd ((alLookup s.channel_subscriptions ch).getD []) cid) := by
  unfold subscribe_to_channel
  rw [if_pos h]
  simp only [hk, if_true]

theorem subscribe_channels_of_missing (s : ConnState) (cid : String)
    (ch : PyScalar) (h : cid ∈ s.active)
    (hk : alHasKey s.channel_subscriptions ch = false) :
    (subscribe_to_channel s cid ch).channel_subscriptions =
      s.channel_subscriptions ++ [(ch, [cid])] := by
  have h0 : alLookup s.channel_subscriptions ch = none :=
    alHasKey_eq_false_iff.mp hk
  unfold subscribe_to_channel
  rw [if_pos h]
  simp only [hk, Bool.false_eq_true, if_false]
  rw [alLookup_append_missing _ _ _ h0]
  show alSet (s.channel_subscriptions ++ [(ch, [])]) ch
      (setAdd ((some ([] : List String)).getD []) cid) = _
  rw [alSet_append_missing _ _ _ _ h0]
  rfl

theorem subscribe_of_not_mem (s : ConnState) (cid : String) (ch : PyScalar)
    (h : cid ∉ s.active) : subscribe_to_channel s cid ch = s := by
  unfold subscribe_to_channel
  rw [if_neg h]

theorem unsubscribe_channels_of_haskey (t : ConnState) (cid : String)
    (ch : PyScalar) {conns : List String}
    (hk : alLookup t.channel_subscriptions ch = some conns) :
    (unsubscribe_from_channel t cid ch).channel_subscriptions =
      (if (conns.erase cid).isEmpty then
        alErase t.channel_subscriptions ch
      else alSet t.channel_subscriptions ch (conns.erase cid)) := by
  have hk' : alHasKey t.channel_subscriptions ch = true := by
    unfold alHasKey
    rw [hk]
    rfl
  unfold unsubscribe_from_channel
  rw [if_pos hk']
  rw [hk]
  by_cases he : ((conns : List String).erase cid).isEmpty
  · simp only [Option.getD_some, he, if_true]
  · simp only [Option.getD_some, he, if_false]
    simp at he
    simp [he]

theorem unsubscribe_of_missing (t : ConnState) (cid : String) (ch : PyScalar)
    (hk : alHasKey t.channel_subscriptions ch = false) :
    unsubscribe_from_channel t cid ch = t := by
  unfold unsubscribe_from_channel
  rw [if_neg (by simp [hk])]

/-- C5, counterexample: for a connection that is already subscribed,
Subscribe is a set no-op, so Subscribe-then-Unsubscribe drops the
subscriber count from 1 to 0 instead of returning it to its prior
value 1. -/
theorem C5_counterexample :
    get_channel_subscriber_count subDemoState (.pstr "room-1") = 1 ∧
    get_channel_subscriber_count
      (unsubscribe_from_channel
        (subscribe_to_channel subDemoState "c1" (.pstr "room-1"))
        "c1" (.pstr "room-1")) (.pstr "room-1") = 0 := by decide

/-- C5 as amended: for an active connection that is not already subscribed
to the channel, Subscribe then Unsubscribe returns the channel's
subscriber count to its prior value; subscribing (as an active connection)
to a nonexistent channel creates the channel entry holding exactly that
connection; and unsubscribing the last member deletes the channel
entry. -/
theorem C5_subscribe_unsubscribe (s : ConnState) (cid : String)
    (ch : PyScalar) (hact : cid ∈ s.active)
    (hnd : alNodup s.channel_subscriptions)
    (hnotsub : cid ∉ (alLookup s.channel_subscriptions ch).getD []) :
    (get_channel_subscriber_count
       (unsubscribe_from_channel (subscribe_to_channel s cid ch) cid ch) ch =
     get_channel_subscriber_count s ch) ∧
    (alHasKey s.channel_subscriptions ch = false →
       alLookup (subscribe_to_channel s cid ch).channel_subscriptions ch =
         some [cid]) ∧
    (∀ t : ConnState, alNodup t.channel_subscriptions →
       alLookup t.channel_subscriptions ch = some [cid] →
       alHasKey (unsubscribe_from_channel t cid ch).channel_subscriptions ch =
         false) := by
  refine ⟨?_, ?_, ?_⟩
  · by_cases hk : alHasKey s.channel_subscriptions ch = true
    · obtain ⟨conns, hconns⟩ : ∃ c, alLookup s.channel_subscriptions ch = some c := by
        unfold alHasKey at hk
        cases hv : alLookup s.channel_subscriptions ch
        · rw [hv] at hk
          simp at hk
        · exact ⟨_, rfl⟩
      rw [hconns] at hnotsub
      simp only [Option.getD_some] at hnotsub
      have hsub := subscribe_channels_of_haskey s cid ch hact hk
      rw [hconns] at hsub
      simp only [Option.getD_some] at hsub
      have hsetadd : setAdd conns cid = conns ++ [cid] := by
        unfold setAdd
        rw [if_neg hnotsub]
      rw [hsetadd] at hsub
      have hlook1 : alLookup
          (subscribe_to_channel s cid ch).channel_subscriptions ch =
          some (conns ++ [cid]) := by
        rw [hsub]
        exact alLookup_alSet_self _ _ _
      have hunsub := unsubscribe_channels_of_haskey
        (subscribe_to_channel s cid ch) cid ch hlook1
      rw [erase_append_self hnotsub] at hunsub
      unfold get_channel_subscriber_count
      rw [hunsub, hconns]
      by_cases hc : conns.isEmpty
      · rw [if_pos hc]
        have hnd1 : alNodup
            (subscribe_to_channel s cid ch).channel_subscriptions := by
          rw [hsub]
          exact alNodup_alSet _ _ _ hnd
        rw [alLookup_alErase_self ch hnd1]
        have hc' : conns = [] := by simpa using hc
        rw [hc']
        rfl
      · rw [if_neg hc]
        rw [alLookup_alSet_self]
    · have hk' : alHasKey s.channel_subscriptions ch = false := by
        cases hv : alHasKey s.channel_subscriptions ch
        · rfl
        · exact absurd hv hk
      have h0 : alLookup s.channel_subscriptions ch = none :=
        alHasKey_eq_false_iff.mp hk'
      have hsub := subscribe_channels_of_missing s cid ch hact hk'
      have hlook1 : alLookup
          (subscribe_to_channel s cid ch).channel_subscriptions ch =
          some [cid] := by
        rw [hsub]
        exact alLookup_append_missing _ _ _ h0
      have hunsub := unsubscribe_channels_of_haskey
        (subscribe_to_channel s cid ch) cid ch hlook1
      simp only [List.erase_cons_head, List.isEmpty_nil, if_true] at hunsub
      unfold get_channel_subscriber_count
      rw [hunsub, hsub, alErase_append_missing _ _ _ h0, h0]
  · intro hk
    rw [subscribe_channels_of_missing s cid ch hact hk]
    exact alLookup_append_missing _ _ _ (alHasKey_eq_false_iff.mp hk)
  · intro t hndt hkt
    have hunsub := unsubscribe_channels_of_haskey t cid ch hkt
    simp only [List.erase_cons_head, List.isEmpty_nil, if_true] at hunsub
    rw [alHasKey_eq_false_iff, hunsub]
    exact alLookup_alErase_self ch hndt

/-- Witness for C5's amended theorem: fresh subscribe then unsubscribe on
the demo state, on a channel that does not exist yet. -/
theorem C5_subscribe_unsubscribe_witness :
    ("c1" ∈ demoState.active ∧
     "c1" ∉ (alLookup demoState.channel_subscriptions (.pstr "ch")).getD []) ∧
    get_channel_subscriber_count
      (unsubscribe_from_channel
        (subscribe_to_channel demoState "c1" (.pstr "ch")) "c1" (.pstr "ch"))
      (.pstr "ch") =
      get_channel_subscriber_count demoState (.pstr "ch") :=
  ⟨⟨by decide, by decide⟩,
   (C5_subscribe_unsubscribe demoState "c1" (.pstr "ch") (by decide)
      (by unfold alNodup; decide) (by decide)).1⟩

/-- C7: on a live connection whose transport accepts the reply, an
undecodable frame is answered with an `invalid_json` error frame and an
object frame with an unrecognized type string is answered with an
`unknown_message_type` error frame carrying `"Unknown message type: <t>"`;
in both cases the registry maps are untouched (the connection stays
registered) and the loop continues. -/
theorem C7_bad_frame_replies (sendOk : String → Bool) (s : ConnState)
    (cid : String) (fs : Msg) (t : String) (now : Int)
    (hmem : cid ∈ s.active) (hok : sendOk cid = true)
    (ht : PyVal.get (.pyobj fs) "type" = .pstr t)
    (h1 : t ≠ "heartbeat") (h2 : t ≠ "subscribe") (h3 : t ≠ "unsubscribe")
    (h4 : t ≠ "ping") :
    (handleFrame sendOk s cid (.decoded (.pyobj fs)) now =
      ({ s with
         attempts := s.attempts ++
           [(cid, errorMsg "unknown_message_type"
               ("Unknown message type: " ++ t))],
         sent := s.sent ++
           [(cid, errorMsg "unknown_message_type"
               ("Unknown message type: " ++ t))] }, .cont)) ∧
    (handleFrame sendOk s cid .malformed now =
      ({ s with
         attempts := s.attempts ++
           [(cid, errorMsg "invalid_json" "Invalid JSON format")],
         sent := s.sent ++
           [(cid, errorMsg "invalid_json" "Invalid JSON format")] }, .cont)) ∧
    cid ∈ (handleFrame sendOk s cid (.decoded (.pyobj fs)) now).1.active := by
  have hmain : handleFrame sendOk s cid (.decoded (.pyobj fs)) now =
      ({ s with
         attempts := s.attempts ++
           [(cid, errorMsg "unknown_message_type"
               ("Unknown message type: " ++ t))],
         sent := s.sent ++
           [(cid, errorMsg "unknown_message_type"
               ("Unknown message type: " ++ t))] }, .cont) := by
    unfold handleFrame
    dsimp only
    rw [ht]
    simp only [PyScalar.pstr.injEq, h1, h2, h3, h4, if_false]
    rw [send_eq_ok sendOk s cid _ hmem hok]
    rfl
  refine ⟨hmain, ?_, ?_⟩
  · unfold handleFrame
    dsimp only
    rw [send_eq_ok sendOk s cid _ hmem hok]
  · rw [hmain]
    exact hmem

/-- Witness for C7: the spec's own scenario, frame
`{"type": "bogus"}` on the demo connection. -/
theorem C7_bad_frame_replies_witness :
    ("c1" ∈ demoState.active ∧
     PyVal.get (.pyobj [("type", .pstr "bogus")]) "type" = .pstr "bogus") ∧
    handleFrame okAll demoState "c1"
        (.decoded (.pyobj [("type", .pstr "bogus")])) 0 =
      ({ demoState with
         attempts := demoState.attempts ++
           [("c1", errorMsg "unknown_message_type"
               "Unknown message type: bogus")],
         sent := demoState.sent ++
           [("c1", errorMsg "unknown_message_type"
               "Unknown message type: bogus")] }, .cont) :=
  ⟨⟨by decide, by decide⟩,
   (C7_bad_frame_replies okAll demoState "c1" [("type", .pstr "bogus")]
      "bogus" 0 (by decide) rfl rfl (by decide) (by decide) (by decide)
      (by decide)).1⟩

/-! ## Registry invariants (claims C3 and C9) -/

theorem disconnect_users_of_mem {s : ConnState} {cid : String} (r : String)
    (h : cid ∈ s.active) :
    (disconnect s cid r).user_connections =
      (match (alLookup s.connection_metadata cid).bind (·.user_id) with
       | some u =>
          if (u != "") && alHasKey s.user_connections u then
            (if (((alLookup s.user_connections u).getD []).erase cid).isEmpty
             then alErase s.user_connections u
             else alSet s.user_connections u
               (((alLookup s.user_connections u).getD []).erase cid))
          else s.user_connections
       | none => s.user_connections) := by
  unfold disconnect
  simp only [h, if_true]
  repeat' split
  all_goals rfl

theorem subscribe_frame (s : ConnState) (cid : String) (ch : PyScalar) :
    (subscribe_to_channel s cid ch).active = s.active ∧
    (subscribe_to_channel s cid ch).user_connections = s.user_connections ∧
    (subscribe_to_channel s cid ch).connection_metadata =
      s.connection_metadata ∧
    (subscribe_to_channel s cid ch).removals = s.removals ∧
    (subscribe_to_channel s cid ch).attempts = s.attempts := by
  refine ⟨?_, ?_, ?_, ?_, ?_⟩ <;>
    (simp only [subscribe_to_channel]; split <;> (try split) <;> rfl)

theorem unsubscribe_frame (t : ConnState) (cid : String) (ch : PyScalar) :
    (unsubscribe_from_channel t cid ch).active = t.active ∧
    (unsubscribe_from_channel t cid ch).user_connections =
      t.user_connections ∧
    (unsubscribe_from_channel t cid ch).connection_metadata =
      t.connection_metadata ∧
    (unsubscribe_from_channel t cid ch).removals = t.removals ∧
    (unsubscribe_from_channel t cid ch).attempts = t.attempts := by
  refine ⟨?_, ?_, ?_, ?_, ?_⟩ <;>
    (simp only [unsubscribe_from_channel]; split <;> (try split) <;> rfl)

theorem inv3_disconnect {s : ConnState} (cid r : String) (h : Inv3 s) :
    Inv3 (disconnect s cid r) := by
  by_cases hc : cid ∈ s.active
  · constructor
    · rw [disconnect_users_of_mem r hc]
      cases hm : (alLookup s.connection_metadata cid).bind (·.user_id) with
      | none => exact h.1
      | some u =>
          dsimp only
          by_cases hcond : ((u != "") && alHasKey s.user_connections u) = true
          · rw [if_pos hcond]
            by_cases he :
                (((alLookup s.user_connections u).getD []).erase cid).isEmpty
            · rw [if_pos he]
              exact fun p hp => h.1 p (mem_alErase hp)
            · rw [if_neg he]
              intro p hp
              rcases mem_alSet hp with hq | hq
              · rw [hq]
                simpa using he
              · exact h.1 p hq
          · rw [if_neg hcond]
            exact h.1
    · rw [disconnect_channels_of_mem r hc]
      intro p hp
      rw [List.mem_filter] at hp
      simpa using hp.2
  · rw [disconnect_of_not_mem r hc]
    exact h

theorem inv3_send (sendOk : String → Bool) (s : ConnState) (cid : String)
    (msg : Msg) (h : Inv3 s) :
    Inv3 (send_personal_message sendOk s cid msg).1 := by
  by_cases hc : cid ∈ s.active
  · by_cases hok : sendOk cid = true
    · rw [send_eq_ok sendOk s cid msg hc hok]
      exact h
    · have hf : sendOk cid = false := by
        cases hv : sendOk cid
        · rfl
        · exact absurd hv hok
      rw [send_eq_fail sendOk s cid msg hc hf]
      exact inv3_disconnect cid "send_error" h
  · rw [send_eq_missing sendOk s cid msg hc]
    exact h

theorem inv3_connect (hb : Int) (sendOk : String → Bool) (s : ConnState)
    (cid : String) (u : Option String) (now : Int) (h : Inv3 s) :
    Inv3 (connect hb sendOk s cid u now).1 := by
  unfold connect
  apply inv3_send
  rcases u with _ | u₀
  · exact h
  · dsimp only
    by_cases hu : (u₀ != "") = true
    · simp only [hu, if_true]
      refine ⟨?_, h.2⟩
      by_cases hk : alHasKey s.user_connections u₀ = true
      · simp only [hk, if_true]
        intro p hp
        rcases mem_alSet hp with hq | hq
        · rw [hq]
          exact setAdd_ne_nil _ _
        · exact h.1 p hq
      · have hk' : alHasKey s.user_connections u₀ = false := by
          cases hv : alHasKey s.user_connections u₀
          · rfl
          · exact absurd hv hk
        have h0 : alLookup s.user_connections u₀ = none :=
          alHasKey_eq_false_iff.mp hk'
        simp only [hk', Bool.false_eq_true, if_false]
        rw [alLookup_append_missing _ _ _ h0]
        intro p hp
        rw [show setAdd ((some ([] : List String)).getD []) cid = [cid] from rfl]
          at hp
        rw [alSet_append_missing _ _ _ _ h0] at hp
        rcases List.mem_append.mp hp with hq | hq
        · exact h.1 p hq
        · rw [List.mem_singleton] at hq
          rw [hq]
          simp
    · simp only [hu, Bool.false_eq_true, if_false]
      exact h

theorem inv3_subscribe (s : ConnState) (cid : String) (ch : PyScalar)
    (h : Inv3 s) : Inv3 (subscribe_to_channel s cid ch) := by
  by_cases hc : cid ∈ s.active
  · refine ⟨(subscribe_frame s cid ch).2.1 ▸ h.1, ?_⟩
    by_cases hk : alHasKey s.channel_subscriptions ch = true
    · rw [subscribe_channels_of_haskey s cid ch hc hk]
      intro p hp
      rcases mem_alSet hp with hq | hq
      · rw [hq]
        exact setAdd_ne_nil _ _
      · exact h.2 p hq
    · have hk' : alHasKey s.channel_subscriptions ch = false := by
        cases hv : alHasKey s.channel_subscriptions ch
        · rfl
        · exact absurd hv hk
      rw [subscribe_channels_of_missing s cid ch hc hk']
      intro p hp
      rcases List.mem_append.mp hp with hq | hq
      · exact h.2 p hq
      · rw [List.mem_singleton] at hq
        rw [hq]
        simp
  · rw [subscribe_of_not_mem s cid ch hc]
    exact h

theorem inv3_unsubscribe (t : ConnState) (cid : String) (ch : PyScalar)
    (h : Inv3 t) : Inv3 (unsubscribe_from_channel t cid ch) := by
  cases hv : alLookup t.channel_subscriptions ch with
  | none =>
      rw [unsubscribe_of_missing t cid ch (alHasKey_eq_false_iff.mpr hv)]
      exact h
  | some conns =>
      refine ⟨(unsubscribe_frame t cid ch).2.1 ▸ h.1, ?_⟩
      rw [unsubscribe_channels_of_haskey t cid ch hv]
      by_cases he : ((conns : List String).erase cid).isEmpty
      · rw [if_pos he]
        exact fun p hp => h.2 p (mem_alErase hp)
      · rw [if_neg he]
        intro p hp
        rcases mem_alSet hp with hq | hq
        · rw [hq]
          simpa using he
        · exact h.2 p hq

theorem inv3_handle_heartbeat (sendOk : String → Bool) (s : ConnState)
    (cid : String) (now : Int) (h : Inv3 s) :
    Inv3 (handle_heartbeat sendOk s cid now) := by
  unfold handle_heartbeat
  cases hv : alLookup s.connection_metadata cid with
  | none => exact h
  | some m =>
      apply inv3_send
      exact h

theorem hbScan_fst_cons (hb hbTimeout : Int) (sendOk : String → Bool)
    (now : Int) (s : ConnState) (cid : String) (m : Meta)
    (rest : List (String × Meta)) :
    (hbScan hb hbTimeout sendOk now s ((cid, m) :: rest)).1 =
      (hbScan hb hbTimeout sendOk now
        (if hb ≤ now - m.last_ping
         then (send_personal_message sendOk s cid pingMsg).1 else s)
        rest).1 := by
  simp only [hbScan]
  split
  · rfl
  · rfl

theorem hbScan_snd_cons (hb hbTimeout : Int) (sendOk : String → Bool)
    (now : Int) (s : ConnState) (cid : String) (m : Meta)
    (rest : List (String × Meta)) :
    (hbScan hb hbTimeout sendOk now s ((cid, m) :: rest)).2 =
      (if hbTimeout < now - m.last_ping then [cid] else []) ++
      (hbScan hb hbTimeout sendOk now
        (if hb ≤ now - m.last_ping
         then (send_personal_message sendOk s cid pingMsg).1 else s)
        rest).2 := by
  simp only [hbScan]
  split
  · rfl
  · rfl

theorem hbScan_preserve (P : ConnState → Prop) (hb hbTimeout : Int)
    (sendOk : String → Bool) (now : Int)
    (hsend : ∀ t c msg, P t → P ((send_personal_message sendOk t c msg).1)) :
    ∀ (items : List (String × Meta)) (s : ConnState), P s →
      P (hbScan hb hbTimeout sendOk now s items).1 := by
  intro items
  induction items with
  | nil => exact fun s hs => hs
  | cons p rest ih =>
      intro s hs
      obtain ⟨cid, m⟩ := p
      rw [hbScan_fst_cons]
      apply ih
      by_cases hd : hb ≤ now - m.last_ping
      · rw [if_pos hd]
        exact hsend s cid pingMsg hs
      · rw [if_neg hd]
        exact hs

theorem foldl_disconnect_preserve (P : ConnState → Prop) (r : String)
    (hdis : ∀ t c, P t → P (disconnect t c r)) :
    ∀ (dead : List String) (s : ConnState), P s →
      P (dead.foldl (fun st c => disconnect st c r) s) := by
  intro dead
  induction dead with
  | nil => exact fun s hs => hs
  | cons c rest ih =>
      intro s hs
      rw [List.foldl_cons]
      exact ih _ (hdis s c hs)

theorem inv3_heartbeat_iteration (hb hbTimeout : Int)
    (sendOk : String → Bool) (s : ConnState) (now : Int) (h : Inv3 s) :
    Inv3 (heartbeat_iteration hb hbTimeout sendOk s now) := by
  unfold heartbeat_iteration
  apply foldl_disconnect_preserve Inv3 "heartbeat_timeout"
    (fun t c ht => inv3_disconnect c "heartbeat_timeout" ht)
  exact hbScan_preserve Inv3 hb hbTimeout sendOk now
    (fun t c msg ht => inv3_send sendOk t c msg ht) _ _ h

theorem inv3_cleanup (s : ConnState) (h : Inv3 s) :
    Inv3 (cleanup_iteration s) := by
  refine ⟨h.1, ?_⟩
  intro p hp
  unfold cleanup_iteration at hp
  rw [List.mem_filter] at hp
  simpa using hp.2

theorem inv3_applyOp (hb hbTimeout : Int) (s : ConnState) (op : Op)
    (h : Inv3 s) : Inv3 (applyOp hb hbTimeout s op) := by
  cases op with
  | connect cid u now sendOk => exact inv3_connect hb sendOk s cid u now h
  | disconnect cid reason => exact inv3_disconnect cid reason h
  | subscribe cid ch => exact inv3_subscribe s cid ch h
  | unsubscribe cid ch => exact inv3_unsubscribe s cid ch h
  | heartbeat cid now sendOk => exact inv3_handle_heartbeat sendOk s cid now h
  | hbIter now sendOk => exact inv3_heartbeat_iteration hb hbTimeout sendOk s now h
  | cleanIter => exact inv3_cleanup s h

theorem foldl_applyOp_preserve (P : ConnState → Prop) (hb hbTimeout : Int)
    (hstep : ∀ s op, P s → P (applyOp hb hbTimeout s op)) :
    ∀ (ops : List Op) (s : ConnState), P s →
      P (ops.foldl (applyOp hb hbTimeout) s) := by
  intro ops
  induction ops with
  | nil => exact fun s hs => hs
  | cons op rest ih =>
      intro s hs
      rw [List.foldl_cons]
      exact ih _ (hstep s op hs)

theorem inv3_runOps (hb hbTimeout : Int) (ops : List Op) :
    Inv3 (runOps hb hbTimeout ops) := by
  unfold runOps
  apply foldl_applyOp_preserve Inv3 hb hbTimeout
    (fun s op hs => inv3_applyOp hb hbTimeout s op hs)
  exact ⟨fun p hp => absurd hp (List.not_mem_nil p),
         fun p hp => absurd hp (List.not_mem_nil p)⟩

/-- C3: after every sequence of manager operations starting from the
freshly constructed manager, a user-id key exists in `user_connections`
iff it maps to a non-empty set of connection ids, and a channel key exists
in `channel_subscriptions` iff its subscriber set is non-empty. -/
theorem C3_nonempty_index_invariant (hb hbTimeout : Int) (ops : List Op)
    (u : String) (ch : PyScalar) :
    (alHasKey (runOps hb hbTimeout ops).user_connections u = true ↔
      ∃ conns, alLookup (runOps hb hbTimeout ops).user_connections u =
        some conns ∧ conns ≠ []) ∧
    (alHasKey (runOps hb hbTimeout ops).channel_subscriptions ch = true ↔
      ∃ conns, alLookup (runOps hb hbTimeout ops).channel_subscriptions ch =
        some conns ∧ conns ≠ []) := by
  have hinv := inv3_runOps hb hbTimeout ops
  constructor
  · constructor
    · intro hk
      unfold alHasKey at hk
      cases hv : alLookup (runOps hb hbTimeout ops).user_connections u with
      | none =>
          rw [hv] at hk
          simp at hk
      | some conns =>
          exact ⟨conns, rfl, hinv.1 (u, conns) (mem_of_alLookup_eq_some hv)⟩
    · rintro ⟨conns, hv, -⟩
      unfold alHasKey
      rw [hv]
      rfl
  · constructor
    · intro hk
      unfold alHasKey at hk
      cases hv : alLookup (runOps hb hbTimeout ops).channel_subscriptions ch with
      | none =>
          rw [hv] at hk
          simp at hk
      | some conns =>
          exact ⟨conns, rfl, hinv.2 (ch, conns) (mem_of_alLookup_eq_some hv)⟩
    · rintro ⟨conns, hv, -⟩
      unfold alHasKey
      rw [hv]
      rfl

/-! ## The C9 registry-consistency invariant -/

theorem mem_alErase_of_nodup {κ α : Type} [DecidableEq κ]
    {m : List (κ × α)} {k : κ} {p : κ × α} (hnd : alNodup m)
    (h : p ∈ alErase m k) : p ∈ m ∧ p.1 ≠ k := by
  refine ⟨mem_alErase h, ?_⟩
  intro hk
  have hmem : p.1 ∈ alKeys (alErase m k) := List.mem_map_of_mem Prod.fst h
  rw [alKeys_alErase, hk] at hmem
  exact hnd.not_mem_erase hmem

theorem mem_alSet_of_nodup {κ α : Type} [DecidableEq κ]
    {m : List (κ × α)} {k : κ} {v : α} {p : κ × α} (hnd : alNodup m)
    (h : p ∈ alSet m k v) : p = (k, v) ∨ (p ∈ m ∧ p.1 ≠ k) := by
  induction m with
  | nil =>
      left
      simpa [alSet] using h
  | cons q rest ih =>
      have hnd1 : (alKeys rest).Nodup := (List.nodup_cons.mp hnd).2
      by_cases hq : q.1 = k
      · simp [alSet, hq] at h
        rcases h with h | h
        · left
          simp [h]
        · right
          refine ⟨List.mem_cons_of_mem _ h, ?_⟩
          intro hk
          have hmem : p.1 ∈ alKeys rest := List.mem_map_of_mem Prod.fst h
          rw [hk, ← hq] at hmem
          exact (List.nodup_cons.mp hnd).1 hmem
      · simp [alSet, hq] at h
        rcases h with h | h
        · right
          refine ⟨by simp [h], ?_⟩
          rw [h]
          exact hq
        · rcases ih hnd1 h with h' | h'
          · left
            exact h'
          · right
            exact ⟨List.mem_cons_of_mem _ h'.1, h'.2⟩

theorem alNodup_append_missing {κ α : Type} [DecidableEq κ]
    {m : List (κ × α)} {k : κ} (v : α) (hnd : alNodup m)
    (h : alLookup m k = none) : alNodup (m ++ [(k, v)]) := by
  unfold alNodup
  unfold alKeys
  rw [List.map_append]
  refine List.Nodup.append hnd (List.nodup_singleton k) ?_
  intro a ha hb
  rw [List.map_singleton, List.mem_singleton] at hb
  subst hb
  have := alLookup_isSome_of_mem_keys (m := m) ha
  rw [h] at this
  simp at this

theorem inv9_of_eq_maps {s t : ConnState} (h : Inv9 s)
    (ha : t.active = s.active)
    (hu : t.user_connections = s.user_connections)
    (hm : t.connection_metadata = s.connection_metadata)
    (hc : t.channel_subscriptions = s.channel_subscriptions) : Inv9 t := by
  refine ⟨?_, ?_, ?_, ?_, ?_, ?_, ?_, ?_, ?_, ?_⟩
  · rw [ha]
    exact h.active_nodup
  · rw [hm]
    exact h.meta_nodup
  · rw [hu]
    exact h.users_nodup
  · rw [hu]
    exact h.user_sets_nodup
  · rw [hc]
    exact h.chan_sets_nodup
  · intro k
    rw [hm, ha]
    exact h.meta_keys k
  · rw [hu, ha]
    exact h.user_sub
  · rw [hc, ha]
    exact h.chan_sub
  · rw [hu, hm]
    exact h.owner
  · rw [hu]
    exact h.user_key_ne

theorem inv9_disconnect {s : ConnState} (cid r : String) (h : Inv9 s) :
    Inv9 (disconnect s cid r) := by
  by_cases hc : cid ∈ s.active
  case neg =>
    rw [disconnect_of_not_mem r hc]
    exact h
  case pos =>
  have hactive := disconnect_active_of_mem r hc
  have hmeta := disconnect_metadata_of_mem r hc
  have husers := disconnect_users_of_mem r hc
  have hchans := disconnect_channels_of_mem r hc
  -- Each entry of the new user index comes from an old entry with the
  -- same key, with at most `cid` erased, and no longer contains `cid`.
  have hmain : ∀ p ∈ (disconnect s cid r).user_connections,
      ∃ q, q ∈ s.user_connections ∧ p.1 = q.1 ∧
        (p.2 = q.2 ∨ p.2 = (q.2 : List String).erase cid) ∧
        cid ∉ (p.2 : List String) := by
    rw [husers]
    cases hm : (alLookup s.connection_metadata cid).bind (·.user_id) with
    | none =>
        intro p hp
        refine ⟨p, hp, rfl, Or.inl rfl, ?_⟩
        intro hcid
        obtain ⟨mv, hl, hui⟩ := h.owner p hp cid hcid
        rw [hl] at hm
        have hm2 : mv.user_id = none := hm
        rw [hui] at hm2
        exact Option.noConfusion hm2
    | some u =>
        dsimp only
        by_cases hcond : ((u != "") && alHasKey s.user_connections u) = true
        · rw [if_pos hcond]
          obtain ⟨hu_ne, hk⟩ := Bool.and_eq_true_iff.mp hcond
          obtain ⟨w, hw⟩ : ∃ w, alLookup s.user_connections u = some w := by
            unfold alHasKey at hk
            cases hv : alLookup s.user_connections u
            · rw [hv] at hk
              simp at hk
            · exact ⟨_, rfl⟩
          have hwmem : (u, w) ∈ s.user_connections := mem_of_alLookup_eq_some hw
          by_cases he : (((alLookup s.user_connections u).getD []).erase cid).isEmpty
          · rw [if_pos he]
            intro p hp
            obtain ⟨hpold, hpne⟩ := mem_alErase_of_nodup h.users_nodup hp
            refine ⟨p, hpold, rfl, Or.inl rfl, ?_⟩
            intro hcid
            obtain ⟨mv, hl, hui⟩ := h.owner p hpold cid hcid
            rw [hl] at hm
            have hm2 : mv.user_id = some u := hm
            rw [hui] at hm2
            exact hpne (Option.some.inj hm2)
          · rw [if_neg he]
            intro p hp
            rcases mem_alSet_of_nodup h.users_nodup hp with hp1 | ⟨hpold, hpne⟩
            · refine ⟨(u, w), hwmem, by rw [hp1], ?_, ?_⟩
              · right
                rw [hp1, hw]
                rfl
              · rw [hp1, hw]
                exact (h.user_sets_nodup (u, w) hwmem).not_mem_erase
            · refine ⟨p, hpold, rfl, Or.inl rfl, ?_⟩
              intro hcid
              obtain ⟨mv, hl, hui⟩ := h.owner p hpold cid hcid
              rw [hl] at hm
              have hm2 : mv.user_id = some u := hm
              rw [hui] at hm2
              exact hpne (Option.some.inj hm2)
        · rw [if_neg hcond]
          intro p hp
          refine ⟨p, hp, rfl, Or.inl rfl, ?_⟩
          intro hcid
          obtain ⟨mv, hl, hui⟩ := h.owner p hp cid hcid
          rw [hl] at hm
          have hm2 : mv.user_id = some u := hm
          rw [hui] at hm2
          have hpu : p.1 = u := (Option.some.inj hm2)
          rw [Bool.and_eq_true_iff] at hcond
          push_neg at hcond
          by_cases hu0 : (u != "") = true
          · have hk0 := hcond hu0
            have : alHasKey s.user_connections u = true := by
              unfold alHasKey
              apply alLookup_isSome_of_mem_keys
              rw [← hpu]
              exact List.mem_map_of_mem Prod.fst hp
            exact absurd this (by simpa using hk0)
          · have : u = "" := by simpa using hu0
            exact (h.user_key_ne p hp) (hpu.trans this)
  have hchan_mem : ∀ p ∈ (disconnect s cid r).channel_subscriptions,
      ∃ q, q ∈ s.channel_subscriptions ∧
        p = (q.1, (q.2 : List String).erase cid) := by
    rw [hchans]
    intro p hp
    rw [List.mem_filter] at hp
    obtain ⟨q, hq, hpq⟩ := List.mem_map.mp hp.1
    exact ⟨q, hq, hpq.symm⟩
  refine ⟨?_, ?_, ?_, ?_, ?_, ?_, ?_, ?_, ?_, ?_⟩
  · rw [hactive]
    exact h.active_nodup.erase cid
  · rw [hmeta]
    exact alNodup_alErase _ _ h.meta_nodup
  · rw [husers]
    cases hm : (alLookup s.connection_metadata cid).bind (·.user_id) with
    | none => exact h.users_nodup
    | some u =>
        dsimp only
        by_cases hcond : ((u != "") && alHasKey s.user_connections u) = true
        · rw [if_pos hcond]
          by_cases he :
              (((alLookup s.user_connections u).getD []).erase cid).isEmpty
          · rw [if_pos he]
            exact alNodup_alErase _ _ h.users_nodup
          · rw [if_neg he]
            exact alNodup_alSet _ _ _ h.users_nodup
        · rw [if_neg hcond]
          exact h.users_nodup
  · intro p hp
    obtain ⟨q, hq, -, hpq, -⟩ := hmain p hp
    rcases hpq with hpq | hpq
    · rw [hpq]
      exact h.user_sets_nodup q hq
    · rw [hpq]
      exact (h.user_sets_nodup q hq).erase cid
  · intro p hp
    obtain ⟨q, hq, hpq⟩ := hchan_mem p hp
    rw [hpq]
    exact (h.chan_sets_nodup q hq).erase cid
  · intro k
    rw [hmeta, hactive]
    by_cases hk : k = cid
    · subst hk
      rw [alLookup_alErase_self k h.meta_nodup]
      simp [h.active_nodup.not_mem_erase]
    · rw [alLookup_alErase_ne _ _ _ hk]
      rw [List.mem_erase_of_ne hk]
      exact h.meta_keys k
  · intro p hp c hcmem
    obtain ⟨q, hq, -, hpq, hnocid⟩ := hmain p hp
    have hcne : c ≠ cid := fun hce => hnocid (hce ▸ hcmem)
    have hcold : c ∈ (q.2 : List String) := by
      rcases hpq with hpq | hpq
      · rw [← hpq]
        exact hcmem
      · rw [hpq] at hcmem
        exact List.mem_of_mem_erase hcmem
    rw [hactive]
    rw [List.mem_erase_of_ne hcne]
    exact h.user_sub q hq c hcold
  · intro p hp c hcmem
    obtain ⟨q, hq, hpq⟩ := hchan_mem p hp
    rw [hpq] at hcmem
    have := (h.chan_sets_nodup q hq).mem_erase_iff.mp hcmem
    rw [hactive]
    rw [List.mem_erase_of_ne this.1]
    exact h.chan_sub q hq c this.2
  · intro p hp c hcmem
    obtain ⟨q, hq, hkey, hpq, hnocid⟩ := hmain p hp
    have hcne : c ≠ cid := fun hce => hnocid (hce ▸ hcmem)
    have hcold : c ∈ (q.2 : List String) := by
      rcases hpq with hpq | hpq
      · rw [← hpq]
        exact hcmem
      · rw [hpq] at hcmem
        exact List.mem_of_mem_erase hcmem
    obtain ⟨mv, hl, hui⟩ := h.owner q hq c hcold
    refine ⟨mv, ?_, ?_⟩
    · rw [hmeta]
      rw [alLookup_alErase_ne _ _ _ hcne]
      exact hl
    · rw [hkey]
      exact hui
  · intro p hp
    obtain ⟨q, hq, hkey, -, -⟩ := hmain p hp
    rw [hkey]
    exact h.user_key_ne q hq

theorem inv9_send (sendOk : String → Bool) (s : ConnState) (cid : String)
    (msg : Msg) (h : Inv9 s) :
    Inv9 (send_personal_message sendOk s cid msg).1 := by
  by_cases hc : cid ∈ s.active
  · by_cases hok : sendOk cid = true
    · rw [send_eq_ok sendOk s cid msg hc hok]
      exact inv9_of_eq_maps h rfl rfl rfl rfl
    · have hf : sendOk cid = false := by
        cases hv : sendOk cid
        · rfl
        · exact absurd hv hok
      rw [send_eq_fail sendOk s cid msg hc hf]
      exact inv9_disconnect cid "send_error"
        (inv9_of_eq_maps h rfl rfl rfl rfl)
  · rw [send_eq_missing sendOk s cid msg hc]
    exact inv9_of_eq_maps h rfl rfl rfl rfl

theorem inv9_connect (hb : Int) (sendOk : String → Bool) (s : ConnState)
    (cid : String) (u : Option String) (now : Int) (hfresh : cid ∉ s.active)
    (h : Inv9 s) : Inv9 (connect hb sendOk s cid u now).1 := by
  have hbase : Inv9 { s with
      active := setAdd s.active cid,
      connection_metadata := alSet s.connection_metadata cid
        { user_id := u, last_ping := now, created_at := now,
          reconnect_count := 0 } } := by
    refine ⟨?_, ?_, ?_, ?_, ?_, ?_, ?_, ?_, ?_, ?_⟩
    · exact setAdd_nodup cid h.active_nodup
    · exact alNodup_alSet _ _ _ h.meta_nodup
    · exact h.users_nodup
    · exact h.user_sets_nodup
    · exact h.chan_sets_nodup
    · intro k
      by_cases hk : k = cid
      · subst hk
        rw [alLookup_alSet_self]
        simp [setAdd_self_mem]
      · rw [alLookup_alSet_ne _ _ _ _ hk]
        rw [show (k ∈ setAdd s.active cid) = (k = cid ∨ k ∈ s.active) from
          propext setAdd_mem_iff]
        constructor
        · intro hs
          exact Or.inr ((h.meta_keys k).mp hs)
        · rintro (hke | hks)
          · exact absurd hke hk
          · exact (h.meta_keys k).mpr hks
    · intro p hp c hcmem
      exact setAdd_mem_iff.mpr (Or.inr (h.user_sub p hp c hcmem))
    · intro p hp c hcmem
      exact setAdd_mem_iff.mpr (Or.inr (h.chan_sub p hp c hcmem))
    · intro p hp c hcmem
      obtain ⟨mv, hl, hui⟩ := h.owner p hp c hcmem
      have hcne : c ≠ cid := fun hce =>
        hfresh (hce ▸ h.user_sub p hp c hcmem)
      refine ⟨mv, ?_, hui⟩
      rw [alLookup_alSet_ne _ _ _ _ hcne]
      exact hl
    · exact h.user_key_ne
  unfold connect
  apply inv9_send
  rcases u with _ | u₀
  · exact hbase
  · dsimp only
    by_cases hu : (u₀ != "") = true
    · simp only [hu, if_true]
      have hu_ne : u₀ ≠ "" := by simpa using hu
      by_cases hk : alHasKey s.user_connections u₀ = true
      · obtain ⟨w, hw⟩ : ∃ w, alLookup s.user_connections u₀ = some w := by
          unfold alHasKey at hk
          cases hv : alLookup s.user_connections u₀
          · rw [hv] at hk
            simp at hk
          · exact ⟨_, rfl⟩
        have hwmem : (u₀, w) ∈ s.user_connections :=
          mem_of_alLookup_eq_some hw
        simp only [hk, if_true]
        rw [hw]
        refine ⟨hbase.active_nodup, hbase.meta_nodup, ?_, ?_, hbase.chan_sets_nodup,
          hbase.meta_keys, ?_, hbase.chan_sub, ?_, ?_⟩
        · exact alNodup_alSet _ _ _ h.users_nodup
        · intro p hp
          rcases mem_alSet hp with hp1 | hp1
          · rw [hp1]
            exact setAdd_nodup cid (h.user_sets_nodup (u₀, w) hwmem)
          · exact h.user_sets_nodup p hp1
        · intro p hp c hcmem
          rcases mem_alSet hp with hp1 | hp1
          · rw [hp1] at hcmem
            rcases mem_setAdd hcmem with hce | hcw
            · rw [hce]
              exact setAdd_self_mem _ _
            · exact setAdd_mem_iff.mpr
                (Or.inr (h.user_sub (u₀, w) hwmem c hcw))
          · exact setAdd_mem_iff.mpr (Or.inr (h.user_sub p hp1 c hcmem))
        · intro p hp c hcmem
          rcases mem_alSet hp with hp1 | hp1
          · rw [hp1] at hcmem ⊢
            rcases mem_setAdd hcmem with hce | hcw
            · subst hce
              exact ⟨_, alLookup_alSet_self _ _ _, rfl⟩
            · obtain ⟨mv, hl, hui⟩ := h.owner (u₀, w) hwmem c hcw
              have hcne : c ≠ cid := fun hce =>
                hfresh (hce ▸ h.user_sub (u₀, w) hwmem c hcw)
              refine ⟨mv, ?_, hui⟩
              rw [alLookup_alSet_ne _ _ _ _ hcne]
              exact hl
          · obtain ⟨mv, hl, hui⟩ := h.owner p hp1 c hcmem
            have hcne : c ≠ cid := fun hce =>
              hfresh (hce ▸ h.user_sub p hp1 c hcmem)
            refine ⟨mv, ?_, hui⟩
            rw [alLookup_alSet_ne _ _ _ _ hcne]
            exact hl
        · intro p hp
          rcases mem_alSet hp with hp1 | hp1
          · rw [hp1]
            exact hu_ne
          · exact h.user_key_ne p hp1
      · have hk' : alHasKey s.user_connections u₀ = false := by
          cases hv : alHasKey s.user_connections u₀
          · rfl
          · exact absurd hv hk
        have h0 : alLookup s.user_connections u₀ = none :=
          alHasKey_eq_false_iff.mp hk'
        simp only [hk', Bool.false_eq_true, if_false]
        rw [alLookup_append_missing _ _ _ h0]
        rw [show setAdd ((some ([] : List String)).getD []) cid = [cid]
          from rfl]
        rw [alSet_append_missing _ _ _ _ h0]
        refine ⟨hbase.active_nodup, hbase.meta_nodup, ?_, ?_, hbase.chan_sets_nodup,
          hbase.meta_keys, ?_, hbase.chan_sub, ?_, ?_⟩
        · exact alNodup_append_missing _ h.users_nodup h0
        · intro p hp
          rcases List.mem_append.mp hp with hp1 | hp1
          · exact h.user_sets_nodup p hp1
          · rw [List.mem_singleton] at hp1
            rw [hp1]
            exact List.nodup_singleton cid
        · intro p hp c hcmem
          rcases List.mem_append.mp hp with hp1 | hp1
          · exact setAdd_mem_iff.mpr (Or.inr (h.user_sub p hp1 c hcmem))
          · rw [List.mem_singleton] at hp1
            rw [hp1] at hcmem
            rw [List.mem_singleton] at hcmem
            rw [hcmem]
            exact setAdd_self_mem _ _
        · intro p hp c hcmem
          rcases List.mem_append.mp hp with hp1 | hp1
          · obtain ⟨mv, hl, hui⟩ := h.owner p hp1 c hcmem
            have hcne : c ≠ cid := fun hce =>
              hfresh (hce ▸ h.user_sub p hp1 c hcmem)
            refine ⟨mv, ?_, hui⟩
            rw [alLookup_alSet_ne _ _ _ _ hcne]
            exact hl
          · rw [List.mem_singleton] at hp1
            rw [hp1] at hcmem ⊢
            rw [List.mem_singleton] at hcmem
            subst hcmem
            exact ⟨_, alLookup_alSet_self _ _ _, rfl⟩
        · intro p hp
          rcases List.mem_append.mp hp with hp1 | hp1
          · exact h.user_key_ne p hp1
          · rw [List.mem_singleton] at hp1
            rw [hp1]
            exact hu_ne
    · simp only [hu, Bool.false_eq_true, if_false]
      exact hbase

theorem inv9_of_parts {s t : ConnState} (h : Inv9 s)
    (ha : t.active = s.active)
    (hu : t.user_connections = s.user_connections)
    (hm : t.connection_metadata = s.connection_metadata)
    (hnodup : ∀ p ∈ t.channel_subscriptions, (p.2 : List String).Nodup)
    (hsub : ∀ p ∈ t.channel_subscriptions, ∀ c ∈ (p.2 : List String),
      c ∈ s.active) : Inv9 t := by
  refine ⟨?_, ?_, ?_, ?_, hnodup, ?_, ?_, ?_, ?_, ?_⟩
  · rw [ha]
    exact h.active_nodup
  · rw [hm]
    exact h.meta_nodup
  · rw [hu]
    exact h.users_nodup
  · rw [hu]
    exact h.user_sets_nodup
  · intro k
    rw [hm, ha]
    exact h.meta_keys k
  · rw [hu, ha]
    exact h.user_sub
  · intro p hp c hc
    rw [ha]
    exact hsub p hp c hc
  · rw [hu, hm]
    exact h.owner
  · rw [hu]
    exact h.user_key_ne

theorem inv9_subscribe (s : ConnState) (cid : String) (ch : PyScalar)
    (h : Inv9 s) : Inv9 (subscribe_to_channel s cid ch) := by
  by_cases hc : cid ∈ s.active
  · have hf := subscribe_frame s cid ch
    have hprop : ∀ p ∈ (subscribe_to_channel s cid ch).channel_subscriptions,
        (p.2 : List String).Nodup ∧
        ∀ c ∈ (p.2 : List String), c ∈ s.active := by
      by_cases hk : alHasKey s.channel_subscriptions ch = true
      · obtain ⟨w, hw⟩ : ∃ w, alLookup s.channel_subscriptions ch = some w := by
          unfold alHasKey at hk
          cases hv : alLookup s.channel_subscriptions ch
          · rw [hv] at hk
            simp at hk
          · exact ⟨_, rfl⟩
        have hwmem : (ch, w) ∈ s.channel_subscriptions :=
          mem_of_alLookup_eq_some hw
        rw [subscribe_channels_of_haskey s cid ch hc hk, hw]
        intro p hp
        rcases mem_alSet hp with hp1 | hp1
        · rw [hp1]
          refine ⟨setAdd_nodup cid (h.chan_sets_nodup (ch, w) hwmem), ?_⟩
          intro c hcmem
          rcases mem_setAdd hcmem with hce | hcw
          · rw [hce]
            exact hc
          · exact h.chan_sub (ch, w) hwmem c hcw
        · exact ⟨h.chan_sets_nodup p hp1, h.chan_sub p hp1⟩
      · have hk' : alHasKey s.channel_subscriptions ch = false := by
          cases hv : alHasKey s.channel_subscriptions ch
          · rfl
          · exact absurd hv hk
        rw [subscribe_channels_of_missing s cid ch hc hk']
        intro p hp
        rcases List.mem_append.mp hp with hp1 | hp1
        · exact ⟨h.chan_sets_nodup p hp1, h.chan_sub p hp1⟩
        · rw [List.mem_singleton] at hp1
          rw [hp1]
          refine ⟨List.nodup_singleton cid, ?_⟩
          intro c hcmem
          rw [List.mem_singleton] at hcmem
          rw [hcmem]
          exact hc
    exact inv9_of_parts h hf.1 hf.2.1 hf.2.2.1
      (fun p hp => (hprop p hp).1) (fun p hp => (hprop p hp).2)
  · rw [subscribe_of_not_mem s cid ch hc]
    exact h

theorem inv9_unsubscribe (t : ConnState) (cid : String) (ch : PyScalar)
    (h : Inv9 t) : Inv9 (unsubscribe_from_channel t cid ch) := by
  cases hv : alLookup t.channel_subscriptions ch with
  | none =>
      rw [unsubscribe_of_missing t cid ch (alHasKey_eq_false_iff.mpr hv)]
      exact h
  | some conns =>
      have hf := unsubscribe_frame t cid ch
      have hprop : ∀ p ∈
          (unsubscribe_from_channel t cid ch).channel_subscriptions,
          (p.2 : List String).Nodup ∧
          ∀ c ∈ (p.2 : List String), c ∈ t.active := by
        rw [unsubscribe_channels_of_haskey t cid ch hv]
        by_cases he : ((conns : List String).erase cid).isEmpty
        · rw [if_pos he]
          intro p hp
          have hp1 := mem_alErase hp
          exact ⟨h.chan_sets_nodup p hp1, h.chan_sub p hp1⟩
        · rw [if_neg he]
          intro p hp
          have hcm : (ch, conns) ∈ t.channel_subscriptions :=
            mem_of_alLookup_eq_some hv
          rcases mem_alSet hp with hp1 | hp1
          · rw [hp1]
            refine ⟨(h.chan_sets_nodup (ch, conns) hcm).erase cid, ?_⟩
            intro c hcmem
            exact h.chan_sub (ch, conns) hcm c (List.mem_of_mem_erase hcmem)
          · exact ⟨h.chan_sets_nodup p hp1, h.chan_sub p hp1⟩
      exact inv9_of_parts h hf.1 hf.2.1 hf.2.2.1
        (fun p hp => (hprop p hp).1) (fun p hp => (hprop p hp).2)

theorem inv9_handle_heartbeat (sendOk : String → Bool) (s : ConnState)
    (cid : String) (now : Int) (h : Inv9 s) :
    Inv9 (handle_heartbeat sendOk s cid now) := by
  unfold handle_heartbeat
  cases hv : alLookup s.connection_metadata cid with
  | none => exact h
  | some m =>
      apply inv9_send
      refine ⟨h.active_nodup, alNodup_alSet _ _ _ h.meta_nodup,
        h.users_nodup, h.user_sets_nodup, h.chan_sets_nodup, ?_,
        h.user_sub, h.chan_sub, ?_, h.user_key_ne⟩
      · intro k
        by_cases hk : k = cid
        · subst hk
          rw [alLookup_alSet_self]
          simp only [Option.isSome_some, true_iff]
          exact (h.meta_keys k).mp (by rw [hv]; rfl)
        · rw [alLookup_alSet_ne _ _ _ _ hk]
          exact h.meta_keys k
      · intro p hp c hcmem
        obtain ⟨mv, hl, hui⟩ := h.owner p hp c hcmem
        by_cases hck : c = cid
        · subst hck
          have hm_eq : mv = m := by
            rw [hl] at hv
            exact Option.some.inj hv
          refine ⟨{ m with last_ping := now }, alLookup_alSet_self _ _ _, ?_⟩
          show m.user_id = some p.1
          rw [← hm_eq]
          exact hui
        · refine ⟨mv, ?_, hui⟩
          rw [alLookup_alSet_ne _ _ _ _ hck]
          exact hl

theorem inv9_heartbeat_iteration (hb hbTimeout : Int)
    (sendOk : String → Bool) (s : ConnState) (now : Int) (h : Inv9 s) :
    Inv9 (heartbeat_iteration hb hbTimeout sendOk s now) := by
  unfold heartbeat_iteration
  apply foldl_disconnect_preserve Inv9 "heartbeat_timeout"
    (fun t c ht => inv9_disconnect c "heartbeat_timeout" ht)
  exact hbScan_preserve Inv9 hb hbTimeout sendOk now
    (fun t c msg ht => inv9_send sendOk t c msg ht) _ _ h

theorem inv9_cleanup (s : ConnState) (h : Inv9 s) :
    Inv9 (cleanup_iteration s) := by
  refine ⟨h.active_nodup, h.meta_nodup, h.users_nodup, h.user_sets_nodup,
    ?_, h.meta_keys, h.user_sub, ?_, h.owner, h.user_key_ne⟩
  · intro p hp
    unfold cleanup_iteration at hp
    exact h.chan_sets_nodup p (List.mem_filter.mp hp).1
  · intro p hp
    unfold cleanup_iteration at hp
    exact h.chan_sub p (List.mem_filter.mp hp).1

theorem inv9_applyOp (hb hbTimeout : Int) (s : ConnState) (op : Op)
    (h : Inv9 s)
    (hfresh : (match op with
               | Op.connect cid _ _ _ => decide (cid ∉ s.active)
               | _ => true) = true) :
    Inv9 (applyOp hb hbTimeout s op) := by
  cases op with
  | connect cid u now sendOk =>
      exact inv9_connect hb sendOk s cid u now (by simpa using hfresh) h
  | disconnect cid reason => exact inv9_disconnect cid reason h
  | subscribe cid ch => exact inv9_subscribe s cid ch h
  | unsubscribe cid ch => exact inv9_unsubscribe s cid ch h
  | heartbeat cid now sendOk => exact inv9_handle_heartbeat sendOk s cid now h
  | hbIter now sendOk =>
      exact inv9_heartbeat_iteration hb hbTimeout sendOk s now h
  | cleanIter => exact inv9_cleanup s h

theorem inv9_foldl (hb hbTimeout : Int) :
    ∀ (ops : List Op) (s : ConnState), Inv9 s →
      freshOps hb hbTimeout s ops = true →
      Inv9 (ops.foldl (applyOp hb hbTimeout) s) := by
  intro ops
  induction ops with
  | nil => exact fun s hs _ => hs
  | cons op rest ih =>
      intro s hs hfresh
      rw [List.foldl_cons]
      unfold freshOps at hfresh
      rw [Bool.and_eq_true_iff] at hfresh
      exact ih _ (inv9_applyOp hb hbTimeout s op hs hfresh.1) hfresh.2

/-- C9: after any operation sequence whose connects use fresh ids, the key
set of `connection_metadata` equals the key set of `active_connections`,
and every connection id appearing in any `user_connections` set or any
`channel_subscriptions` set is a key of `active_connections`. -/
theorem C9_registry_consistency (hb hbTimeout : Int) (ops : List Op)
    (hfresh : freshOps hb hbTimeout initState ops = true) :
    (∀ k, (alLookup (runOps hb hbTimeout ops).connection_metadata k).isSome ↔
       k ∈ (runOps hb hbTimeout ops).active) ∧
    (∀ p ∈ (runOps hb hbTimeout ops).user_connections,
       ∀ c ∈ (p.2 : List String), c ∈ (runOps hb hbTimeout ops).active) ∧
    (∀ p ∈ (runOps hb hbTimeout ops).channel_subscriptions,
       ∀ c ∈ (p.2 : List String), c ∈ (runOps hb hbTimeout ops).active) := by
  have hinit : Inv9 initState := by
    refine ⟨List.nodup_nil, List.nodup_nil, List.nodup_nil, ?_, ?_, ?_, ?_,
      ?_, ?_, ?_⟩ <;>
      first
        | (intro p hp; exact absurd hp (List.not_mem_nil p))
        | (intro k; constructor
           · intro hk
             simp [initState, alLookup] at hk
           · intro hk
             exact absurd hk (List.not_mem_nil k))
  have h := inv9_foldl hb hbTimeout ops initState hinit hfresh
  exact ⟨h.meta_keys, h.user_sub, h.chan_sub⟩

/-- Witness for C9 on the demo run. -/
theorem C9_registry_consistency_witness :
    freshOps 30 60 initState demoOps = true ∧
    ((alLookup (runOps 30 60 demoOps).connection_metadata "c1").isSome ↔
      "c1" ∈ (runOps 30 60 demoOps).active) :=
  ⟨rfl, (C9_registry_consistency 30 60 demoOps rfl).1 "c1"⟩

/-! ## Heartbeat-loop characterization (claims C1 and C8) -/

theorem disconnect_preserves_active_nodup (s : ConnState) (c r : String)
    (hnd : s.active.Nodup) : (disconnect s c r).active.Nodup := by
  by_cases hc : c ∈ s.active
  · rw [disconnect_active_of_mem r hc]
    exact hnd.erase c
  · rw [disconnect_of_not_mem r hc]
    exact hnd

theorem send_preserves_active_nodup (sendOk : String → Bool) (s : ConnState)
    (c : String) (msg : Msg) (hnd : s.active.Nodup) :
    (send_personal_message sendOk s c msg).1.active.Nodup := by
  by_cases hc : c ∈ s.active
  · by_cases hok : sendOk c = true
    · rw [send_eq_ok sendOk s c msg hc hok]
      exact hnd
    · have hf : sendOk c = false := by
        cases hv : sendOk c
        · rfl
        · exact absurd hv hok
      rw [send_eq_fail sendOk s c msg hc hf]
      exact disconnect_preserves_active_nodup _ c "send_error" hnd
  · rw [send_eq_missing sendOk s c msg hc]
    exact hnd

theorem send_other_char (sendOk : String → Bool) (s : ConnState)
    (c : String) (msg : Msg) (cid : String) (hne : c ≠ cid) :
    ((cid ∈ (send_personal_message sendOk s c msg).1.active) ↔
       cid ∈ s.active) ∧
    (∀ r, (send_personal_message sendOk s c msg).1.removals.count (cid, r) =
       s.removals.count (cid, r)) ∧
    (((cid, pingMsg) ∈ (send_personal_message sendOk s c msg).1.attempts) ↔
       (cid, pingMsg) ∈ s.attempts) := by
  by_cases hc : c ∈ s.active
  · by_cases hok : sendOk c = true
    · rw [send_eq_ok sendOk s c msg hc hok]
      refine ⟨Iff.rfl, fun r => rfl, ?_⟩
      simp only [List.mem_append, List.mem_singleton, Prod.mk.injEq]
      constructor
      · rintro (hx | ⟨hx, -⟩)
        · exact hx
        · exact absurd hx.symm hne
      · exact fun hx => Or.inl hx
    · have hf : sendOk c = false := by
        cases hv : sendOk c
        · rfl
        · exact absurd hv hok
      rw [send_eq_fail sendOk s c msg hc hf]
      refine ⟨disconnect_active_mem_ne _ (Ne.symm hne), ?_, ?_⟩
      · intro r
        rw [disconnect_removals_count_ne _ (Ne.symm hne)]
      · rw [disconnect_attempts]
        simp only [List.mem_append, List.mem_singleton, Prod.mk.injEq]
        constructor
        · rintro (hx | ⟨hx, -⟩)
          · exact hx
          · exact absurd hx.symm hne
        · exact fun hx => Or.inl hx
  · rw [send_eq_missing sendOk s c msg hc]
    exact ⟨Iff.rfl, fun r => rfl, Iff.rfl⟩

theorem send_self_ping_ok (sendOk : String → Bool) (s : ConnState)
    (cid : String) (hmem : cid ∈ s.active) (hok : sendOk cid = true) :
    (send_personal_message sendOk s cid pingMsg).1.active = s.active ∧
    (send_personal_message sendOk s cid pingMsg).1.removals = s.removals ∧
    (cid, pingMsg) ∈ (send_personal_message sendOk s cid pingMsg).1.attempts := by
  rw [send_eq_ok sendOk s cid pingMsg hmem hok]
  refine ⟨rfl, rfl, ?_⟩
  simp

theorem send_self_ping_fail (sendOk : String → Bool) (s : ConnState)
    (cid : String) (hmem : cid ∈ s.active) (hnd : s.active.Nodup)
    (hfail : sendOk cid = false) :
    cid ∉ (send_personal_message sendOk s cid pingMsg).1.active ∧
    (∀ r, (send_personal_message sendOk s cid pingMsg).1.removals.count
        (cid, r) =
      s.removals.count (cid, r) + (if r = "send_error" then 1 else 0)) ∧
    (cid, pingMsg) ∈ (send_personal_message sendOk s cid pingMsg).1.attempts := by
  rw [send_eq_fail sendOk s cid pingMsg hmem hfail]
  dsimp only
  have hmem' : cid ∈
      ({ s with attempts := s.attempts ++ [(cid, pingMsg)] } : ConnState).active :=
    hmem
  refine ⟨disconnect_active_not_mem_self _ hnd, ?_, ?_⟩
  · intro r
    rw [disconnect_removals_of_mem "send_error" hmem']
    rw [List.count_append]
    by_cases hr : r = "send_error"
    · subst hr
      simp
    · simp [hr]
  · rw [disconnect_attempts { s with attempts := s.attempts ++ [(cid, pingMsg)] }
      cid "send_error"]
    simp

theorem hbScan_others (hb hbTimeout : Int) (sendOk : String → Bool)
    (now : Int) (cid : String) :
    ∀ (items : List (String × Meta)) (s : ConnState),
      (∀ q ∈ items, (q : String × Meta).1 ≠ cid) →
      ((cid ∈ (hbScan hb hbTimeout sendOk now s items).1.active ↔
          cid ∈ s.active) ∧
       (∀ r, (hbScan hb hbTimeout sendOk now s items).1.removals.count
           (cid, r) = s.removals.count (cid, r)) ∧
       ((cid, pingMsg) ∈ (hbScan hb hbTimeout sendOk now s items).1.attempts ↔
          (cid, pingMsg) ∈ s.attempts) ∧
       ((hbScan hb hbTimeout sendOk now s items).2.count cid = 0) ∧
       (s.active.Nodup →
          (hbScan hb hbTimeout sendOk now s items).1.active.Nodup)) := by
  intro items
  induction items with
  | nil => exact fun s _ => ⟨Iff.rfl, fun r => rfl, Iff.rfl, rfl, fun h => h⟩
  | cons q rest ih =>
      intro s hx
      obtain ⟨c, m⟩ := q
      have hc_ne : c ≠ cid := hx (c, m) (List.mem_cons_self _ _)
      have hx' : ∀ q ∈ rest, (q : String × Meta).1 ≠ cid :=
        fun q hq => hx q (List.mem_cons_of_mem _ hq)
      set s1 := if hb ≤ now - m.last_ping
        then (send_personal_message sendOk s c pingMsg).1 else s with hs1
      have hstep : (cid ∈ s1.active ↔ cid ∈ s.active) ∧
          (∀ r, s1.removals.count (cid, r) = s.removals.count (cid, r)) ∧
          ((cid, pingMsg) ∈ s1.attempts ↔ (cid, pingMsg) ∈ s.attempts) ∧
          (s.active.Nodup → s1.active.Nodup) := by
        rw [hs1]
        by_cases hd : hb ≤ now - m.last_ping
        · rw [if_pos hd]
          obtain ⟨h1, h2, h3⟩ := send_other_char sendOk s c pingMsg cid hc_ne
          exact ⟨h1, h2, h3,
            fun hnd => send_preserves_active_nodup sendOk s c pingMsg hnd⟩
        · rw [if_neg hd]
          exact ⟨Iff.rfl, fun r => rfl, Iff.rfl, fun h => h⟩
      obtain ⟨ih1, ih2, ih3, ih4, ih5⟩ := ih s1 hx'
      rw [hbScan_fst_cons, hbScan_snd_cons, ← hs1]
      refine ⟨ih1.trans hstep.1, ?_, ih3.trans hstep.2.2.1, ?_, ?_⟩
      · intro r
        rw [ih2 r, hstep.2.1 r]
      · rw [List.count_append, ih4]
        by_cases ht : hbTimeout < now - m.last_ping
        · rw [if_pos ht]
          simp [List.count_cons, Ne.symm hc_ne]
        · rw [if_neg ht]
          simp
      · intro hnd
        exact ih5 (hstep.2.2.2 hnd)

theorem hbScan_char (hb hbTimeout : Int) (sendOk : String → Bool)
    (now : Int) (cid : String) (mm : Meta) :
    ∀ (items : List (String × Meta)) (s : ConnState),
      alNodup items → (cid, mm) ∈ items → cid ∈ s.active →
      s.active.Nodup →
      ((cid ∈ (hbScan hb hbTimeout sendOk now s items).1.active ↔
          ¬(hb ≤ now - mm.last_ping ∧ sendOk cid = false)) ∧
       ((hbScan hb hbTimeout sendOk now s items).1.removals.count
           (cid, "send_error") =
          s.removals.count (cid, "send_error") +
          (if hb ≤ now - mm.last_ping ∧ sendOk cid = false then 1 else 0)) ∧
       (∀ r, r ≠ "send_error" →
          (hbScan hb hbTimeout sendOk now s items).1.removals.count (cid, r) =
            s.removals.count (cid, r)) ∧
       ((cid, pingMsg) ∈ (hbScan hb hbTimeout sendOk now s items).1.attempts ↔
          (hb ≤ now - mm.last_ping ∨ (cid, pingMsg) ∈ s.attempts)) ∧
       ((hbScan hb hbTimeout sendOk now s items).2.count cid =
          if hbTimeout < now - mm.last_ping then 1 else 0) ∧
       (hbScan hb hbTimeout sendOk now s items).1.active.Nodup) := by
  intro items
  induction items with
  | nil =>
      intro s _ hmem
      exact absurd hmem (List.not_mem_nil _)
  | cons q rest ih =>
      intro s hknd hmem hact hand
      obtain ⟨c, m'⟩ := q
      have hknd' : alNodup rest := (List.nodup_cons.mp hknd).2
      have hkhd : c ∉ alKeys rest := (List.nodup_cons.mp hknd).1
      by_cases hcc : c = cid
      · subst hcc
        have hmm : mm = m' := by
          rcases List.mem_cons.mp hmem with hx | hx
          · exact congrArg Prod.snd hx
          · exact absurd (List.mem_map_of_mem Prod.fst hx) hkhd
        subst hmm
        have hx' : ∀ q ∈ rest, (q : String × Meta).1 ≠ c :=
          fun q hq hqe => hkhd (hqe ▸ List.mem_map_of_mem Prod.fst hq)
        rw [hbScan_fst_cons, hbScan_snd_cons]
        set s1 := if hb ≤ now - mm.last_ping
          then (send_personal_message sendOk s c pingMsg).1 else s with hs1
        obtain ⟨ho1, ho2, ho3, ho4, ho5⟩ :=
          hbScan_others hb hbTimeout sendOk now c rest s1 hx'
        by_cases hd : hb ≤ now - mm.last_ping
        · by_cases hok : sendOk c = true
          · obtain ⟨hp1, hp2, hp3⟩ := send_self_ping_ok sendOk s c hact hok
            have hs1e : s1 = (send_personal_message sendOk s c pingMsg).1 := by
              rw [hs1, if_pos hd]
            refine ⟨?_, ?_, ?_, ?_, ?_, ?_⟩
            · rw [ho1, hs1e, hp1]
              simp [hact, hok]
            · rw [ho2, hs1e, hp2]
              simp [hok]
            · intro r hr
              rw [ho2, hs1e, hp2]
            · rw [ho3, hs1e]
              simp [hd, hp3]
            · rw [List.count_append, ho4]
              by_cases ht : hbTimeout < now - mm.last_ping
              · simp [ht]
              · simp [ht]
            · apply ho5
              rw [hs1e, hp1]
              exact hand
          · have hfail : sendOk c = false := by
              cases hv : sendOk c
              · rfl
              · exact absurd hv hok
            obtain ⟨hp1, hp2, hp3⟩ :=
              send_self_ping_fail sendOk s c hact hand hfail
            have hs1e : s1 = (send_personal_message sendOk s c pingMsg).1 := by
              rw [hs1, if_pos hd]
            refine ⟨?_, ?_, ?_, ?_, ?_, ?_⟩
            · rw [ho1, hs1e]
              simp [hp1, hd, hfail]
            · rw [ho2, hs1e, hp2 "send_error"]
              simp [hd, hfail]
            · intro r hr
              rw [ho2, hs1e, hp2 r]
              simp [hr]
            · rw [ho3, hs1e]
              simp [hd, hp3]
            · rw [List.count_append, ho4]
              by_cases ht : hbTimeout < now - mm.last_ping
              · simp [ht]
              · simp [ht]
            · apply ho5
              rw [hs1e]
              exact send_preserves_active_nodup sendOk s c pingMsg hand
        · have hs1e : s1 = s := by
            rw [hs1, if_neg hd]
          refine ⟨?_, ?_, ?_, ?_, ?_, ?_⟩
          · rw [ho1, hs1e]
            simp [hact, hd]
          · rw [ho2, hs1e]
            simp [hd]
          · intro r hr
            rw [ho2, hs1e]
          · rw [ho3, hs1e]
            simp [hd]
          · rw [List.count_append, ho4]
            by_cases ht : hbTimeout < now - mm.last_ping
            · simp [ht]
            · simp [ht]
          · apply ho5
            rw [hs1e]
            exact hand
      · have hmem' : (cid, mm) ∈ rest := by
          rcases List.mem_cons.mp hmem with hx | hx
          · exact absurd (congrArg Prod.fst hx).symm hcc
          · exact hx
        rw [hbScan_fst_cons, hbScan_snd_cons]
        set s1 := if hb ≤ now - m'.last_ping
          then (send_personal_message sendOk s c pingMsg).1 else s with hs1
        have hstep : (cid ∈ s1.active ↔ cid ∈ s.active) ∧
            (∀ r, s1.removals.count (cid, r) = s.removals.count (cid, r)) ∧
            ((cid, pingMsg) ∈ s1.attempts ↔ (cid, pingMsg) ∈ s.attempts) ∧
            s1.active.Nodup := by
          rw [hs1]
          by_cases hd : hb ≤ now - m'.last_ping
          · rw [if_pos hd]
            obtain ⟨h1, h2, h3⟩ := send_other_char sendOk s c pingMsg cid hcc
            exact ⟨h1, h2, h3,
              send_preserves_active_nodup sendOk s c pingMsg hand⟩
          · rw [if_neg hd]
            exact ⟨Iff.rfl, fun r => rfl, Iff.rfl, hand⟩
        obtain ⟨ih1, ih2, ih3, ih4, ih5, ih6⟩ :=
          ih s1 hknd' hmem' (hstep.1.mpr hact) hstep.2.2.2
        refine ⟨?_, ?_, ?_, ?_, ?_, ih6⟩
        · rw [ih1]
        · rw [ih2, hstep.2.1]
        · intro r hr
          rw [ih3 r hr, hstep.2.1]
        · rw [ih4, hstep.2.2.1]
        · rw [List.count_append, ih5]
          by_cases ht : hbTimeout < now - m'.last_ping
          · simp [ht, List.count_cons, Ne.symm hcc]
          · simp [ht]

theorem fold_disconnect_attempts (r : String) :
    ∀ (dead : List String) (s : ConnState),
      (dead.foldl (fun st c => disconnect st c r) s).attempts = s.attempts := by
  intro dead
  induction dead with
  | nil => exact fun s => rfl
  | cons c rest ih =>
      intro s
      rw [List.foldl_cons, ih, disconnect_attempts]

theorem fold_disconnect_char (cid : String) :
    ∀ (dead : List String) (s : ConnState),
      dead.count cid ≤ 1 → s.active.Nodup →
      ((cid ∈ (dead.foldl
            (fun st c => disconnect st c "heartbeat_timeout") s).active ↔
          (cid ∈ s.active ∧ cid ∉ dead)) ∧
       ((dead.foldl (fun st c => disconnect st c "heartbeat_timeout")
             s).removals.count (cid, "heartbeat_timeout") =
          s.removals.count (cid, "heartbeat_timeout") +
          (if cid ∈ dead ∧ cid ∈ s.active then 1 else 0)) ∧
       (∀ r, r ≠ "heartbeat_timeout" →
          (dead.foldl (fun st c => disconnect st c "heartbeat_timeout")
              s).removals.count (cid, r) = s.removals.count (cid, r))) := by
  intro dead
  induction dead with
  | nil =>
      intro s _ _
      refine ⟨?_, ?_, fun r _ => rfl⟩
      · simp
      · simp
  | cons c rest ih =>
      intro s hcount hand
      rw [List.foldl_cons]
      by_cases hcc : c = cid
      · subst hcc
        have hrest : c ∉ rest := by
          rw [List.count_cons_self] at hcount
          have : rest.count c = 0 := by omega
          exact List.count_eq_zero.mp this
        have hrcount : rest.count c ≤ 1 := by
          rw [List.count_eq_zero.mpr hrest]
          omega
        obtain ⟨ih1, ih2, ih3⟩ := ih (disconnect s c "heartbeat_timeout")
          hrcount (disconnect_preserves_active_nodup s c _ hand)
        by_cases hmem : c ∈ s.active
        · refine ⟨?_, ?_, ?_⟩
          · rw [ih1]
            have : c ∉ (disconnect s c "heartbeat_timeout").active :=
              disconnect_active_not_mem_self _ hand
            simp [this]
          · rw [ih2]
            rw [disconnect_removals_of_mem _ hmem]
            rw [List.count_append]
            simp [hrest, hmem]
          · intro r hr
            rw [ih3 r hr]
            rw [disconnect_removals_of_mem _ hmem]
            rw [List.count_append]
            simp [hr]
        · rw [disconnect_of_not_mem _ hmem] at ih1 ih2 ih3 ⊢
          refine ⟨?_, ?_, fun r hr => ih3 r hr⟩
          · rw [ih1]
            simp [hmem]
          · rw [ih2]
            simp [hrest, hmem]
      · have hrcount : rest.count cid ≤ 1 := by
          rw [List.count_cons_of_ne (by exact fun h => hcc h.symm)] at hcount
          exact hcount
        obtain ⟨ih1, ih2, ih3⟩ := ih (disconnect s c "heartbeat_timeout")
          hrcount (disconnect_preserves_active_nodup s c _ hand)
        refine ⟨?_, ?_, ?_⟩
        · rw [ih1]
          rw [disconnect_active_mem_ne _ (fun h => hcc h.symm)]
          simp [hcc, Ne.symm hcc]
        · rw [ih2]
          rw [disconnect_removals_count_ne _ (fun h => hcc h.symm)]
          have hmi : (cid ∈ (disconnect s c "heartbeat_timeout").active) =
              (cid ∈ s.active) :=
            propext (disconnect_active_mem_ne _ (fun h => hcc h.symm))
          simp only [hmi]
          simp [List.mem_cons, Ne.symm hcc]
        · intro r hr
          rw [ih3 r hr]
          rw [disconnect_removals_count_ne _ (fun h => hcc h.symm)]

theorem heartbeat_iteration_char (hb hbTimeout : Int)
    (sendOk : String → Bool) (s : ConnState) (cid : String) (m : Meta)
    (now : Int) (hmnd : alNodup s.connection_metadata)
    (hand : s.active.Nodup) (hact : cid ∈ s.active)
    (hmeta : alLookup s.connection_metadata cid = some m) :
    ((cid ∈ (heartbeat_iteration hb hbTimeout sendOk s now).active ↔
        (¬(hb ≤ now - m.last_ping ∧ sendOk cid = false) ∧
         ¬ hbTimeout < now - m.last_ping)) ∧
     ((heartbeat_iteration hb hbTimeout sendOk s now).removals.count
         (cid, "send_error") =
        s.removals.count (cid, "send_error") +
        (if hb ≤ now - m.last_ping ∧ sendOk cid = false then 1 else 0)) ∧
     ((heartbeat_iteration hb hbTimeout sendOk s now).removals.count
         (cid, "heartbeat_timeout") =
        s.removals.count (cid, "heartbeat_timeout") +
        (if hbTimeout < now - m.last_ping ∧
            ¬(hb ≤ now - m.last_ping ∧ sendOk cid = false) then 1 else 0)) ∧
     ((cid, pingMsg) ∈
        (heartbeat_iteration hb hbTimeout sendOk s now).attempts ↔
        (hb ≤ now - m.last_ping ∨ (cid, pingMsg) ∈ s.attempts))) := by
  have hmem := mem_of_alLookup_eq_some hmeta
  obtain ⟨hs1, hs2, hs3, hs4, hs5, hs6⟩ :=
    hbScan_char hb hbTimeout sendOk now cid m s.connection_metadata s hmnd
      hmem hact hand
  unfold heartbeat_iteration
  dsimp only
  set r := hbScan hb hbTimeout sendOk now s s.connection_metadata with hr
  have hdcount : r.2.count cid ≤ 1 := by
    rw [hs5]
    split <;> omega
  obtain ⟨hf1, hf2, hf3⟩ := fold_disconnect_char cid r.2 r.1 hdcount hs6
  have hdead_mem : (cid ∈ r.2) ↔ hbTimeout < now - m.last_ping := by
    by_cases ht : hbTimeout < now - m.last_ping
    · simp only [ht, if_true] at hs5
      have hpos : 0 < r.2.count cid := by
        rw [hs5]
        omega
      simp only [ht, iff_true]
      exact List.count_pos_iff.mp hpos
    · simp only [ht, if_false] at hs5
      simp only [ht, iff_false]
      exact List.count_eq_zero.mp hs5
  refine ⟨?_, ?_, ?_, ?_⟩
  · rw [hf1]
    constructor
    · rintro ⟨h1, h2⟩
      exact ⟨hs1.mp h1, fun ht => h2 (hdead_mem.mpr ht)⟩
    · rintro ⟨h1, h2⟩
      exact ⟨hs1.mpr h1, fun hm2 => h2 (hdead_mem.mp hm2)⟩
  · rw [hf3 "send_error" (by decide), hs2]
  · rw [hf2, hs3 "heartbeat_timeout" (by decide)]
    have hcong : (cid ∈ r.2 ∧ cid ∈ r.1.active) =
        (hbTimeout < now - m.last_ping ∧
         ¬(hb ≤ now - m.last_ping ∧ sendOk cid = false)) :=
      propext (and_congr hdead_mem hs1)
    simp only [hcong]
  · rw [fold_disconnect_attempts "heartbeat_timeout" r.2 r.1]
    exact hs4

/-- C1, counterexample: with one connection whose elapsed time (45s) is
past the ping interval (30s) but within the timeout (60s) and whose
transport rejects the ping write, the iteration evicts it immediately
with reason `"send_error"` — it is never marked and never removed with
reason `"heartbeat_timeout"` as the claim requires. -/
theorem C1_counterexample :
    (heartbeat_iteration 30 60 okNone demoState 45).removals =
      [("c1", "send_error")] ∧
    ("c1", "heartbeat_timeout") ∉
      (heartbeat_iteration 30 60 okNone demoState 45).removals := by decide

/-- C1 as amended: in one heartbeat-loop iteration, for a tracked
connection with `elapsed = now - last_heartbeat_at`: a ping write is
attempted exactly when `elapsed ≥ heartbeat_interval`; a failed ping
write evicts the connection immediately with reason `"send_error"`
(inside `send_personal_message` — the loop's own send-failure marking is
unreachable, so a send failure never yields a `"heartbeat_timeout"`
eviction); the connection is marked exactly when
`elapsed > heartbeat_timeout`, and after the scan every marked connection
still registered is evicted with reason `"heartbeat_timeout"`, at most
once per connection. -/
theorem C1_heartbeat_loop_effects (hb hbTimeout : Int)
    (sendOk : String → Bool) (s : ConnState) (cid : String) (m : Meta)
    (now : Int) (hmnd : alNodup s.connection_metadata)
    (hand : s.active.Nodup) (hact : cid ∈ s.active)
    (hmeta : alLookup s.connection_metadata cid = some m)
    (hrem : s.removals = []) (hatt : s.attempts = []) :
    ((cid, pingMsg) ∈ (heartbeat_iteration hb hbTimeout sendOk s now).attempts
       ↔ hb ≤ now - m.last_ping) ∧
    ((cid, "send_error") ∈
        (heartbeat_iteration hb hbTimeout sendOk s now).removals ↔
       (hb ≤ now - m.last_ping ∧ sendOk cid = false)) ∧
    ((cid, "heartbeat_timeout") ∈
        (heartbeat_iteration hb hbTimeout sendOk s now).removals ↔
       (hbTimeout < now - m.last_ping ∧
        ¬(hb ≤ now - m.last_ping ∧ sendOk cid = false))) ∧
    (cid ∈ (heartbeat_iteration hb hbTimeout sendOk s now).active ↔
       (¬(hb ≤ now - m.last_ping ∧ sendOk cid = false) ∧
        ¬ hbTimeout < now - m.last_ping)) ∧
    (heartbeat_iteration hb hbTimeout sendOk s now).removals.count
        (cid, "heartbeat_timeout") ≤ 1 := by
  obtain ⟨h1, h2, h3, h4⟩ :=
    heartbeat_iteration_char hb hbTimeout sendOk s cid m now hmnd hand hact
      hmeta
  rw [hrem] at h2 h3
  rw [hatt] at h4
  simp only [List.count_nil, List.not_mem_nil, or_false, Nat.zero_add] at h2 h3 h4
  refine ⟨h4, ?_, ?_, h1, ?_⟩
  · rw [← List.count_pos_iff, h2]
    constructor
    · intro hpos
      by_contra hcond
      rw [if_neg hcond] at hpos
      omega
    · intro hcond
      rw [if_pos hcond]
      omega
  · rw [← List.count_pos_iff, h3]
    constructor
    · intro hpos
      by_contra hcond
      rw [if_neg hcond] at hpos
      omega
    · intro hcond
      rw [if_pos hcond]
      omega
  · rw [h3]
    split <;> omega

/-- Witness for C1's amended theorem: the counterexample configuration,
where the failed ping write surfaces as a `"send_error"` eviction. -/
theorem C1_heartbeat_loop_effects_witness :
    ("c1" ∈ demoState.active ∧
     alLookup demoState.connection_metadata "c1" =
       some { user_id := none, last_ping := 0, created_at := 0,
              reconnect_count := 0 }) ∧
    (("c1", "send_error") ∈
        (heartbeat_iteration 30 60 okNone demoState 45).removals ↔
      ((30 : Int) ≤ 45 - 0 ∧ okNone "c1" = false)) :=
  ⟨⟨by decide, by decide⟩,
   (C1_heartbeat_loop_effects 30 60 okNone demoState "c1"
      { user_id := none, last_ping := 0, created_at := 0,
        reconnect_count := 0 } 45 (by unfold alNodup; decide) (by decide)
      (by decide) (by decide) rfl rfl).2.1⟩

/-- C8: a connection that never sends a heartbeat and never acknowledges
a ping (its `last_ping` still equals `created_at`, its transport accepts
ping writes) is evicted with reason `"heartbeat_timeout"` by the
iteration running after `heartbeat_timeout` has elapsed since its
creation, and is not evicted by an iteration running before
`heartbeat_interval` has elapsed (with interval ≤ timeout). -/
theorem C8_heartbeat_timing (hb hbTimeout : Int) (sendOk : String → Bool)
    (s : ConnState) (cid : String) (m : Meta) (now : Int)
    (hmnd : alNodup s.connection_metadata) (hand : s.active.Nodup)
    (hact : cid ∈ s.active)
    (hmeta : alLookup s.connection_metadata cid = some m)
    (hnever : m.last_ping = m.created_at) (hok : sendOk cid = true) :
    (hbTimeout < now - m.created_at →
       cid ∉ (heartbeat_iteration hb hbTimeout sendOk s now).active ∧
       (cid, "heartbeat_timeout") ∈
         (heartbeat_iteration hb hbTimeout sendOk s now).removals) ∧
    (now - m.created_at < hb → hb ≤ hbTimeout →
       cid ∈ (heartbeat_iteration hb hbTimeout sendOk s now).active ∧
       (heartbeat_iteration hb hbTimeout sendOk s now).removals.count
           (cid, "heartbeat_timeout") =
         s.removals.count (cid, "heartbeat_timeout") ∧
       (heartbeat_iteration hb hbTimeout sendOk s now).removals.count
           (cid, "send_error") =
         s.removals.count (cid, "send_error")) := by
  obtain ⟨h1, h2, h3, h4⟩ :=
    heartbeat_iteration_char hb hbTimeout sendOk s cid m now hmnd hand hact
      hmeta
  rw [hnever] at h1 h2 h3
  have hnofail : ¬(hb ≤ now - m.created_at ∧ sendOk cid = false) := by
    rintro ⟨-, hfalse⟩
    rw [hok] at hfalse
    exact Bool.noConfusion hfalse
  constructor
  · intro ht
    constructor
    · rw [h1]
      rintro ⟨-, hcon⟩
      exact hcon ht
    · have hcount : (heartbeat_iteration hb hbTimeout sendOk s
          now).removals.count (cid, "heartbeat_timeout") =
          s.removals.count (cid, "heartbeat_timeout") + 1 := by
        rw [h3, if_pos ⟨ht, hnofail⟩]
      apply List.count_pos_iff.mp
      rw [hcount]
      omega
  · intro hlt hle
    have hnotime : ¬ hbTimeout < now - m.created_at := by omega
    refine ⟨?_, ?_, ?_⟩
    · rw [h1]
      exact ⟨hnofail, hnotime⟩
    · rw [h3, if_neg (by rintro ⟨hcon, -⟩; exact hnotime hcon)]
      omega
    · rw [h2, if_neg hnofail]
      omega

/-- Witness for C8 on the demo connection: evicted at `now = 61` (timeout
60 exceeded), untouched at `now = 10` (interval 30 not yet reached). -/
theorem C8_heartbeat_timing_witness :
    ((60 : Int) < 61 - 0 ∧ (10 : Int) - 0 < 30) ∧
    ("c1", "heartbeat_timeout") ∈
      (heartbeat_iteration 30 60 okAll demoState 61).removals ∧
    "c1" ∈ (heartbeat_iteration 30 60 okAll demoState 10).active :=
  ⟨⟨by decide, by decide⟩,
   ((C8_heartbeat_timing 30 60 okAll demoState "c1"
      { user_id := none, last_ping := 0, created_at := 0,
        reconnect_count := 0 } 61 (by unfold alNodup; decide) (by decide)
      (by decide) (by decide) rfl rfl).1 (by decide)).2,
   ((C8_heartbeat_timing 30 60 okAll demoState "c1"
      { user_id := none, last_ping := 0, created_at := 0,
        reconnect_count := 0 } 10 (by unfold alNodup; decide) (by decide)
      (by decide) (by decide) rfl rfl).2 (by decide) (by decide)).1⟩
